import Mathlib

/-!
Verification development for the hexagondb in-memory key/value server.

The Rust sources are shallowly embedded: Rust String values are modeled as
their UTF-8 byte sequences (List Nat, each element one byte), machine
integers as Nat / Int with explicit range side conditions, HashMap as an
association list (iteration order fixed to list order; no formalized claim
depends on hash iteration order), and Instant as a Nat millisecond clock
passed explicitly.  Fallible paths return Except / Option; a Rust panic is
modeled as the Except.error outcome.
-/

namespace HexagonDB

/-- A Rust String or byte buffer: the list of its bytes. -/
abbrev BStr := List Nat

/-- Bytes of an ASCII string literal (used only for concrete examples). -/
def strB (s : String) : BStr := s.data.map Char.toNat

/-! ### Decimal formatting and parsing

Mirrors what the Rust side does with format!("{}", i) and
str::parse::<i64>().  decimalDigits is big-endian; the fuel argument is
instantiated with n itself, which always suffices since the digit count of
n is at most n for n at least 1. -/

/-- Big-endian decimal digit bytes of n (empty for n = 0); fuel-structural
version of the usual n / 10 recursion. -/
def decimalDigits (fuel n : Nat) : BStr :=
  match fuel with
  | 0 => []
  | fuel + 1 => if n = 0 then [] else decimalDigits fuel (n / 10) ++ [n % 10 + 48]

/-- Decimal byte string of a Nat, as Rust format!("{}", n) produces. -/
def natDecimal (n : Nat) : BStr :=
  if n = 0 then [48] else decimalDigits n n

/-- Decimal byte string of an Int, as Rust format!("{}", i) produces. -/
def intDecimal (i : Int) : BStr :=
  if i < 0 then 45 :: natDecimal i.natAbs else natDecimal i.toNat

/-- Value of big-endian decimal digit bytes. -/
def decDigitsVal (l : BStr) : Nat := l.foldl (fun acc b => acc * 10 + (b - 48)) 0

/-- Every byte is an ASCII digit. -/
def allDigits (l : BStr) : Bool := l.all (fun b => 48 ≤ b && b ≤ 57)

/-- Shared digit-run part of str::parse::<i64>: nonempty, all digits,
value within the i64 range (Rust rejects overflow during accumulation,
which is equivalent to a final range check since accumulation is
monotone). -/
def parseI64Digits (ds : BStr) (neg : Bool) : Option Int :=
  if ds.isEmpty then none
  else if allDigits ds then
    let r : Int := if neg then -((decDigitsVal ds : Nat) : Int) else ((decDigitsVal ds : Nat) : Int)
    if -(2 ^ 63) ≤ r ∧ r ≤ 2 ^ 63 - 1 then some r else none
  else none

/-- Model of str::parse::<i64>: optional single sign, then digits. -/
def parseI64 (s : BStr) : Option Int :=
  match s with
  | [] => none
  | 43 :: rest => parseI64Digits rest false
  | 45 :: rest => parseI64Digits rest true
  | _ => parseI64Digits s false

/-! ### RESP codec (src/resp.rs)

The Rust RespValue enum, with Vec of RespValue represented by the mutual
RespList type so that structural recursion and kernel evaluation work.
Payload Strings are their byte sequences; String::from_utf8_lossy is the
identity on the valid UTF-8 byte sequences that can occur in a Rust
String, and byte contents never influence control flow here, so decoding
is modeled as the identity on bytes. -/

mutual
inductive RespValue : Type where
  | simpleString (s : BStr)
  | error (msg : BStr)
  | integer (i : Int)
  | bulkString (v : Option BStr)
  | array (v : Option RespList)
inductive RespList : Type where
  | nil
  | cons (hd : RespValue) (tl : RespList)
end

/-- Number of elements of a RespList (Vec::len). -/
def RespList.length : RespList → Nat
  | .nil => 0
  | .cons _ tl => tl.length + 1

/-- Build a RespList from a Lean list. -/
def RespList.ofList : List RespValue → RespList
  | [] => .nil
  | v :: tl => .cons v (RespList.ofList tl)

/- Model of RespValue::serialize (byte-for-byte; 43 is the plus sign,
45 minus, 58 colon, 36 dollar, 42 star, 13 10 is CRLF). -/
mutual
def RespValue.serialize : RespValue → BStr
  | .simpleString s => 43 :: (s ++ [13, 10])
  | .error m => 45 :: (m ++ [13, 10])
  | .integer i => 58 :: (intDecimal i ++ [13, 10])
  | .bulkString none => [36, 45, 49, 13, 10]
  | .bulkString (some s) => 36 :: (natDecimal s.length ++ [13, 10] ++ s ++ [13, 10])
  | .array none => [42, 45, 49, 13, 10]
  | .array (some items) =>
    42 :: (natDecimal items.length ++ [13, 10] ++ RespList.serialize items)
def RespList.serialize : RespList → BStr
  | .nil => []
  | .cons v tl => RespValue.serialize v ++ RespList.serialize tl
end

/-- Whether the value is an Error frame. -/
def RespValue.isErrorFrame : RespValue → Bool
  | .error _ => true
  | _ => false

/-- Scan for the first CRLF whose line feed is still inside the buffer,
returning the bytes before it and the number of bytes consumed including
the CRLF; mirrors the index loop of RespHandler::read_line on a nonempty
buffer. -/
def scanLine : BStr → Option (BStr × Nat)
  | [] => none
  | [_] => none
  | b :: c :: rest =>
    if b = 13 ∧ c = 10 then some ([], 2)
    else
      match scanLine (c :: rest) with
      | some (line, len) => some (b :: line, len + 1)
      | none => none

/-- Model of RespHandler::read_line.  On an empty buffer the Rust loop
bound buffer.len() - 1 underflows the usize (wrapping to 2 ^ 64 - 1) and
the buffer[0] access is out of bounds: a panic, modeled as Except.error. -/
def read_line (buffer : BStr) : Except Unit (Option (BStr × Nat)) :=
  match buffer with
  | [] => .error ()
  | _ => .ok (scanLine buffer)

/-- Model of RespHandler::parse_int: read_line, then str::parse::<i64>. -/
def parse_int (buffer : BStr) : Except Unit (Option (Int × Nat)) :=
  match read_line buffer with
  | .error e => .error e
  | .ok none => .ok none
  | .ok (some (line, len)) =>
    match parseI64 line with
    | some v => .ok (some (v, len))
    | none => .ok none

/-- Rust char::is_whitespace restricted to single bytes (the inputs the
formalized claims exercise are ASCII). -/
def isWsp (b : Nat) : Bool :=
  b = 32 || b = 9 || b = 10 || b = 11 || b = 12 || b = 13

/-- Accumulator version of str::split_whitespace on bytes. -/
def splitWspAux : BStr → BStr → List BStr
  | [], cur => if cur.isEmpty then [] else [cur.reverse]
  | b :: rest, cur =>
    if isWsp b then
      if cur.isEmpty then splitWspAux rest [] else cur.reverse :: splitWspAux rest []
    else splitWspAux rest (b :: cur)

/-- Model of str::split_whitespace (empty substrings skipped). -/
def splitWsp (l : BStr) : List BStr := splitWspAux l []

/-- The loop of the Array branch of parse_request: parse count items,
each from the rest of the buffer, accumulating consumed length.  The
recursive parse is passed in as a function; an Err result from it models
a panic and propagates (Rust panics unwind through the loop). -/
def parseItemsAux (sub : BStr → Except Unit (Option (RespValue × Nat))) :
    Nat → BStr → Except Unit (Option (RespList × Nat))
  | 0, _ => .ok (some (.nil, 0))
  | c + 1, buffer =>
    match sub buffer with
    | .error e => .error e
    | .ok none => .ok none
    | .ok (some (item, len)) =>
      match parseItemsAux sub c (buffer.drop len) with
      | .error e => .error e
      | .ok none => .ok none
      | .ok (some (items, total)) => .ok (some (.cons item items, len + total))

/-- Fuel-indexed model of RespHandler::parse_request.  Fuel is only
consumed when recursing into the elements of an Array, and every such
recursion acts on a buffer at least three bytes shorter, so the fuel
chosen by parse_request below can never run out.  Except.error models a
panic.  In the bulk-string branch the usize cast of a negative length and
the release-profile wrapping additions are made explicit with % 2 ^ 64;
an out-of-range slice is a panic. -/
def parseReqF : Nat → BStr → Except Unit (Option (RespValue × Nat))
  | 0, _ => .error ()
  | fuel + 1, buffer =>
    match buffer with
    | [] => .ok none
    | b :: rest =>
      if b = 43 then
        match read_line rest with
        | .error e => .error e
        | .ok none => .ok none
        | .ok (some (line, len)) => .ok (some (.simpleString line, len + 1))
      else if b = 45 then
        match read_line rest with
        | .error e => .error e
        | .ok none => .ok none
        | .ok (some (line, len)) => .ok (some (.error line, len + 1))
      else if b = 58 then
        match parse_int rest with
        | .error e => .error e
        | .ok none => .ok none
        | .ok (some (v, len)) => .ok (some (.integer v, len + 1))
      else if b = 36 then
        match parse_int rest with
        | .error e => .error e
        | .ok none => .ok none
        | .ok (some (lenVal, lenBytes)) =>
          let start := 1 + lenBytes
          if lenVal = -1 then .ok (some (.bulkString none, start))
          else
            let strLen := (lenVal.emod (2 ^ 64)).toNat
            let cmp := (start + strLen + 2) % 2 ^ 64
            if buffer.length ≥ cmp then
              let stop := (start + strLen) % 2 ^ 64
              if start ≤ stop ∧ stop ≤ buffer.length then
                .ok (some (.bulkString (some ((buffer.drop start).take (stop - start))), cmp))
              else .error ()
            else .ok none
      else if b = 42 then
        match parse_int rest with
        | .error e => .error e
        | .ok none => .ok none
        | .ok (some (count, lenBytes)) =>
          let pos := 1 + lenBytes
          if count = -1 then .ok (some (.array none, pos))
          else
            match parseItemsAux (parseReqF fuel) count.toNat (buffer.drop pos) with
            | .error e => .error e
            | .ok none => .ok none
            | .ok (some (items, total)) => .ok (some (.array (some items), pos + total))
      else
        match read_line buffer with
        | .error e => .error e
        | .ok none => .ok none
        | .ok (some (line, len)) =>
          .ok (some (.array (some (RespList.ofList
            ((splitWsp line).map (fun w => RespValue.bulkString (some w))))), len))

/-- Model of RespHandler::parse_request. -/
def parse_request (buffer : BStr) : Except Unit (Option (RespValue × Nat)) :=
  parseReqF (buffer.length + 1) buffer

/-- A CRLF pair occurs somewhere in the byte string. -/
def hasCRLF : BStr → Bool
  | [] => false
  | [_] => false
  | b :: c :: rest => (decide (b = 13) && decide (c = 10)) || hasCRLF (c :: rest)

/- The RESP values that the wire protocol can actually carry: simple
strings and error messages cannot contain a CRLF (the framing has no
escape), integers are i64, and declared lengths fit in an i64. -/
mutual
inductive Representable : RespValue → Prop where
  | simpleString (s : BStr) : hasCRLF s = false → Representable (.simpleString s)
  | error (m : BStr) : hasCRLF m = false → Representable (.error m)
  | integer (i : Int) : -(2 ^ 63) ≤ i → i ≤ 2 ^ 63 - 1 → Representable (.integer i)
  | bulkNone : Representable (.bulkString none)
  | bulkSome (s : BStr) : s.length < 2 ^ 63 → Representable (.bulkString (some s))
  | arrayNone : Representable (.array none)
  | arraySome (items : RespList) : items.length < 2 ^ 63 →
      RepresentableList items → Representable (.array (some items))
inductive RepresentableList : RespList → Prop where
  | nil : RepresentableList .nil
  | cons (v : RespValue) (tl : RespList) :
      Representable v → RepresentableList tl → RepresentableList (.cons v tl)
end

/-! ### Keyspace data model (src/db/types.rs, src/db/core.rs)

f64 fields (sorted-set scores, geo coordinates) are carried as their
IEEE-754 bit patterns (a Nat below 2 ^ 64): no formalized claim computes
with float arithmetic, and the persistence layer moves the bits verbatim.
The scores ordered index of ZSetData and the consumer-group map of
StreamData are never read or written by any code path a claim touches
(no command populates consumer groups, and no formalized claim observes
the ordered index), so the model carries the member-to-score map and the
entries list with last_id. -/

/-- StreamEntry of src/db/types.rs. -/
structure StreamEntryM where
  id : BStr
  fields : List (BStr × BStr)
  timestamp : Nat
  deriving DecidableEq

/-- GeoLocation of src/db/types.rs: f64 bit patterns. -/
structure GeoLocM where
  longitude : Nat
  latitude : Nat
  deriving DecidableEq

/-- DataType of src/db/types.rs. -/
inductive DataTypeM : Type where
  | string (s : BStr)
  | list (xs : List BStr)
  | hash (fields : List (BStr × BStr))
  | set (xs : List BStr)
  | zset (members : List (BStr × Nat))
  | bitmap (data : List Nat)
  | stream (entries : List StreamEntryM) (lastId : Nat)
  | geo (locations : List (BStr × GeoLocM))
  | hyperloglog (registers : List Nat)
  deriving DecidableEq

/-- Entry of src/db/types.rs: value plus optional expiry instant (ms). -/
structure EntryM where
  value : DataTypeM
  expires_at : Option Nat
  deriving DecidableEq

/-- DB of src/db/core.rs: the keyspace map (association list in hash-map
iteration order) and the changes_since_save counter. -/
structure DBM where
  items : List (BStr × EntryM)
  changes_since_save : Nat
  deriving DecidableEq

/-! Association-list operations mirroring HashMap / HashSet. -/

/-- HashMap::get. -/
def assocGet {β : Type} : List (BStr × β) → BStr → Option β
  | [], _ => none
  | (k, v) :: rest, key => if k = key then some v else assocGet rest key

/-- HashMap::insert (replace in place, or append a new binding). -/
def assocPut {β : Type} : List (BStr × β) → BStr → β → List (BStr × β)
  | [], key, v => [(key, v)]
  | (k, w) :: rest, key, v =>
    if k = key then (key, v) :: rest else (k, w) :: assocPut rest key v

/-- HashMap::remove (drops the binding if present). -/
def assocRemove {β : Type} : List (BStr × β) → BStr → List (BStr × β)
  | [], _ => []
  | (k, v) :: rest, key => if k = key then rest else (k, v) :: assocRemove rest key

/-- HashMap::contains_key. -/
def assocHas {β : Type} (l : List (BStr × β)) (k : BStr) : Bool := (assocGet l k).isSome

/-- HashSet::remove: true when the member was present. -/
def setRemove : List BStr → BStr → Bool × List BStr
  | [], _ => (false, [])
  | x :: rest, m =>
    if x = m then (true, rest)
    else
      let (found, rest) := setRemove rest m
      (found, x :: rest)

/-- The WRONGTYPE message every typed handler returns. -/
def wrongTypeMsg : BStr :=
  strB ("WRONGTYPE Operation against a key holding the wrong kind of value")

/-! ### Generic operations (src/db/ops/generic.rs) -/

/-- GenericOps::check_expiration: on touch, a key whose deadline has
passed (Instant::now() at or after expires_at) is removed; returns false
exactly then. -/
def check_expiration (db : DBM) (key : BStr) (now : Nat) : Bool × DBM :=
  match assocGet db.items key with
  | some entry =>
    match entry.expires_at with
    | some t =>
      if now ≥ t then (false, { db with items := assocRemove db.items key }) else (true, db)
    | none => (true, db)
  | none => (true, db)

/-- GenericOps::exists (read-only; no removal). -/
def existsOp (db : DBM) (key : BStr) (now : Nat) : Bool :=
  match assocGet db.items key with
  | some entry =>
    match entry.expires_at with
    | some t => now < t
    | none => true
  | none => false

/-- GenericOps::type_of: the Redis-visible type tag; note that no expiry
check happens here. -/
def type_of (db : DBM) (key : BStr) : Option BStr :=
  (assocGet db.items key).map (fun entry =>
    match entry.value with
    | .string _ => strB ("string")
    | .list _ => strB ("list")
    | .hash _ => strB ("hash")
    | .set _ => strB ("set")
    | .zset _ => strB ("zset")
    | .stream _ _ => strB ("stream")
    | .bitmap _ => strB ("string")
    | .geo _ => strB ("zset")
    | .hyperloglog _ => strB ("string"))

/-- Inner loop of the star case of glob_match: try every nonempty suffix
of the text against the rest of the pattern. -/
def globTryStar (sub : BStr → Bool) : BStr → Bool
  | [] => false
  | c :: rest => sub (c :: rest) || globTryStar sub rest

/-- Fuel-indexed glob_match of src/db/ops/generic.rs; every step consumes
one pattern element, so pattern length plus one fuel never runs out. -/
def globMatchF : Nat → BStr → BStr → Bool
  | 0, _, _ => false
  | fuel + 1, p, t =>
    match p with
    | [] => t.isEmpty
    | 42 :: pr => if pr.isEmpty then true else globTryStar (globMatchF fuel pr) t
    | 63 :: pr =>
      match t with
      | [] => false
      | _ :: tr => globMatchF fuel pr tr
    | c :: pr =>
      match t with
      | [] => false
      | c2 :: tr => if c = c2 then globMatchF fuel pr tr else false

/-- glob_match of src/db/ops/generic.rs. -/
def glob_match (p t : BStr) : Bool := globMatchF (p.length + 1) p t

/-- GenericOps::keys: pattern "*" returns every stored key; otherwise
keys are filtered by glob_match (or plain equality when the pattern has
no wildcard).  No expiry check is performed on the enumerated keys. -/
def keysOp (db : DBM) (pat : BStr) : List BStr :=
  if pat = [42] then db.items.map Prod.fst
  else
    (db.items.map Prod.fst).filter (fun k =>
      if pat.contains 42 || pat.contains 63 then glob_match pat k else decide (k = pat))

/-- GenericOps::dbsize: raw map size, expired entries included. -/
def dbsizeOp (db : DBM) : Nat := db.items.length

/-! ### String operations (src/db/ops/string.rs) -/

/-- StringOps::set. -/
def setOp (db : DBM) (key value : BStr) : DBM :=
  { items := assocPut db.items key { value := .string value, expires_at := none },
    changes_since_save := db.changes_since_save + 1 }

/-- StringOps::get.  The operation takes the database by mutable
reference, so the model returns the (possibly expiry-pruned) database
alongside the Result. -/
def getOp (db : DBM) (key : BStr) (now : Nat) : Except BStr (Option BStr) × DBM :=
  match check_expiration db key now with
  | (false, db) => (.ok none, db)
  | (true, db) =>
    match assocGet db.items key with
    | some entry =>
      match entry.value with
      | .string s => (.ok (some s), db)
      | _ => (.error wrongTypeMsg, db)
    | none => (.ok none, db)

/-- StringOps::incrby: parse the stored decimal (absent key counts as 0),
checked i64 add, store the decimal of the result, carrying over the
expiry deadline read back from the still-present entry. -/
def incrby (db : DBM) (key : BStr) (delta : Int) (now : Nat) : Except BStr Int × DBM :=
  let db := (check_expiration db key now).2
  match assocGet db.items key with
  | some entry =>
    match entry.value with
    | .string s =>
      match parseI64 s with
      | some num =>
        let newVal := num + delta
        if newVal < -(2 ^ 63) ∨ newVal > 2 ^ 63 - 1 then
          (.error (strB ("ERR increment or decrement would overflow")), db)
        else
          (.ok newVal,
            { items := assocPut db.items key
                { value := .string (intDecimal newVal), expires_at := entry.expires_at },
              changes_since_save := db.changes_since_save + 1 })
      | none => (.error (strB ("ERR value is not an integer or out of range")), db)
    | _ => (.error wrongTypeMsg, db)
  | none =>
    let newVal := (0 : Int) + delta
    if newVal < -(2 ^ 63) ∨ newVal > 2 ^ 63 - 1 then
      (.error (strB ("ERR increment or decrement would overflow")), db)
    else
      (.ok newVal,
        { items := assocPut db.items key
            { value := .string (intDecimal newVal), expires_at := none },
          changes_since_save := db.changes_since_save + 1 })

/-- StringOps::incr. -/
def incrOp (db : DBM) (key : BStr) (now : Nat) : Except BStr Int × DBM := incrby db key 1 now

/-- StringOps::decr. -/
def decrOp (db : DBM) (key : BStr) (now : Nat) : Except BStr Int × DBM :=
  incrby db key (-1) now

/-- Wrapping negation of an i64 (release profile, like the other wrapping
arithmetic in this file): two's-complement negation maps i64::MIN to
itself and every other i64 to its exact negation. -/
def i64Neg (d : Int) : Int :=
  (-d + 2 ^ 63).emod (2 ^ 64) - 2 ^ 63

/-- StringOps::decrby: incrby(key, -delta); the i64 negation of the
source wraps at delta = i64::MIN (debug builds panic there). -/
def decrby (db : DBM) (key : BStr) (delta : Int) (now : Nat) : Except BStr Int × DBM :=
  incrby db key (i64Neg delta) now

/-- StringOps::incrbyfloat.  IEEE-754 doubles are opaque bit patterns
here; parsing, addition, the NaN / infinity test and formatting are the
oracle parameters, so the control flow and the state update are exactly
those of the source while no float arithmetic is interpreted. -/
def incrbyfloat (parseF : BStr → Option Nat) (addF : Nat → Nat → Nat)
    (isNanOrInf : Nat → Bool) (fmtF : Nat → BStr)
    (db : DBM) (key : BStr) (delta : Nat) (now : Nat) : Except BStr Nat × DBM :=
  let db := (check_expiration db key now).2
  let currentVal : Option BStr :=
    match assocGet db.items key with
    | some entry =>
      match entry.value with
      | .string s => some s
      | _ => none
    | none => some (strB ("0"))
  match currentVal with
  | none => (.error wrongTypeMsg, db)
  | some s =>
    match parseF s with
    | some num =>
      let newVal := addF num delta
      if isNanOrInf newVal then (.error (strB ("ERR increment would produce NaN or Infinity")), db)
      else
        (.ok newVal,
          { items := assocPut db.items key
              { value := .string (fmtF newVal),
                expires_at := (assocGet db.items key).bind (fun e => e.expires_at) },
            changes_since_save := db.changes_since_save + 1 })
    | none => (.error (strB ("ERR value is not a valid float")), db)

/-! ### List operations (src/db/ops/list.rs) -/

/-- The push loop of ListOps::lpush: for value in values.rev(), insert at
position 0.  The two reversals cancel: the block lands in argument order
in front of the old list (proved below as lpushBlock_eq_append). -/
def lpushBlock (values old : List BStr) : List BStr :=
  values.reverse.foldl (fun l v => v :: l) old

/-- ListOps::lpush: type check on an existing entry, entry(key)
or_insert an empty list, then the reversed-iteration head inserts. -/
def lpush (db : DBM) (key : BStr) (values : List BStr) (now : Nat) :
    Except BStr Nat × DBM :=
  let db := (check_expiration db key now).2
  match assocGet db.items key with
  | some entry =>
    match entry.value with
    | .list old =>
      let newList := lpushBlock values old
      (.ok newList.length,
        { items := assocPut db.items key { entry with value := .list newList },
          changes_since_save := db.changes_since_save + 1 })
    | _ => (.error wrongTypeMsg, db)
  | none =>
    let newList := lpushBlock values []
    (.ok newList.length,
      { items := assocPut db.items key { value := .list newList, expires_at := none },
        changes_since_save := db.changes_since_save + 1 })

/-- ListOps::rpush: Vec::extend appends the arguments in order. -/
def rpush (db : DBM) (key : BStr) (values : List BStr) (now : Nat) :
    Except BStr Nat × DBM :=
  let db := (check_expiration db key now).2
  match assocGet db.items key with
  | some entry =>
    match entry.value with
    | .list old =>
      let newList := old ++ values
      (.ok newList.length,
        { items := assocPut db.items key { entry with value := .list newList },
          changes_since_save := db.changes_since_save + 1 })
    | _ => (.error wrongTypeMsg, db)
  | none =>
    (.ok values.length,
      { items := assocPut db.items key { value := .list values, expires_at := none },
        changes_since_save := db.changes_since_save + 1 })

/-- ListOps::lpop: removes the head element; an emptied list entry stays
in the keyspace. -/
def lpop (db : DBM) (key : BStr) (now : Nat) : Except BStr (Option BStr) × DBM :=
  match check_expiration db key now with
  | (false, db) => (.ok none, db)
  | (true, db) =>
    match assocGet db.items key with
    | some entry =>
      match entry.value with
      | .list [] => (.ok none, db)
      | .list (x :: rest) =>
        (.ok (some x),
          { items := assocPut db.items key { entry with value := .list rest },
            changes_since_save := db.changes_since_save + 1 })
      | _ => (.error wrongTypeMsg, db)
    | none => (.ok none, db)

/-- ListOps::rpop: Vec::pop removes the last element. -/
def rpop (db : DBM) (key : BStr) (now : Nat) : Except BStr (Option BStr) × DBM :=
  match check_expiration db key now with
  | (false, db) => (.ok none, db)
  | (true, db) =>
    match assocGet db.items key with
    | some entry =>
      match entry.value with
      | .list l =>
        match l.getLast? with
        | none => (.ok none, db)
        | some x =>
          (.ok (some x),
            { items := assocPut db.items key { entry with value := .list l.dropLast },
              changes_since_save := db.changes_since_save + 1 })
      | _ => (.error wrongTypeMsg, db)
    | none => (.ok none, db)

/-! ### Hash, set and sorted-set removals (src/db/ops/hash.rs, set.rs,
zset.rs); needed by the empty-container claim. -/

/-- HashOps::hdel (single field). -/
def hdel (db : DBM) (key field : BStr) (now : Nat) : Except BStr Nat × DBM :=
  match check_expiration db key now with
  | (false, db) => (.ok 0, db)
  | (true, db) =>
    match assocGet db.items key with
    | some entry =>
      match entry.value with
      | .hash h =>
        if assocHas h field then
          (.ok 1,
            { items := assocPut db.items key { entry with value := .hash (assocRemove h field) },
              changes_since_save := db.changes_since_save + 1 })
        else (.ok 0, db)
      | _ => (.error wrongTypeMsg, db)
    | none => (.ok 0, db)

/-- SetOps::srem (single member). -/
def srem (db : DBM) (key member : BStr) (now : Nat) : Except BStr Nat × DBM :=
  match check_expiration db key now with
  | (false, db) => (.ok 0, db)
  | (true, db) =>
    match assocGet db.items key with
    | some entry =>
      match entry.value with
      | .set s =>
        match setRemove s member with
        | (true, s) =>
          (.ok 1,
            { items := assocPut db.items key { entry with value := .set s },
              changes_since_save := db.changes_since_save + 1 })
        | (false, _) => (.ok 0, db)
      | _ => (.error wrongTypeMsg, db)
    | none => (.ok 0, db)

/-- ZSetOps::zrem: remove each listed member from the score map. -/
def zrem (db : DBM) (key : BStr) (members : List BStr) (now : Nat) :
    Except BStr Nat × DBM :=
  match check_expiration db key now with
  | (false, db) => (.ok 0, db)
  | (true, db) =>
    match assocGet db.items key with
    | some entry =>
      match entry.value with
      | .zset m =>
        let res := members.foldl
          (fun acc member =>
            if assocHas acc.2 member then (acc.1 + 1, assocRemove acc.2 member) else acc)
          ((0 : Nat), m)
        (.ok res.1,
          { items := assocPut db.items key { entry with value := .zset res.2 },
            changes_since_save :=
              if res.1 > 0 then db.changes_since_save + 1 else db.changes_since_save })
      | _ => (.error wrongTypeMsg, db)
    | none => (.ok 0, db)

/-! ### Bitmap operations (src/db/ops/bitmap.rs) -/

/-- BitmapOps::setbit.  Against a Bitmap it sets the bit; against a
String it converts the entry to a Bitmap in place; against any other
variant it returns 0 early (no error, no change, and the changes counter
is skipped by that early return). -/
def setbit (db : DBM) (key : BStr) (offset : Nat) (value : Bool) (now : Nat) :
    Int × DBM :=
  let db := (check_expiration db key now).2
  let byteIndex := offset / 8
  let bitIndex := 7 - offset % 8
  let update : List Nat → Nat × List Nat := fun data0 =>
    let data := if data0.length ≤ byteIndex
      then data0 ++ List.replicate (byteIndex + 1 - data0.length) 0 else data0
    let oldByte := data.getD byteIndex 0
    let old := (oldByte >>> bitIndex) % 2
    let newByte := if value then Nat.lor oldByte (1 <<< bitIndex)
      else Nat.land oldByte (255 - (1 <<< bitIndex))
    (old, data.set byteIndex newByte)
  match assocGet db.items key with
  | some entry =>
    match entry.value with
    | .bitmap data =>
      let (old, data) := update data
      ((old : Int),
        { items := assocPut db.items key { entry with value := .bitmap data },
          changes_since_save := db.changes_since_save + 1 })
    | .string s =>
      let (old, data) := update s
      ((old : Int),
        { items := assocPut db.items key { entry with value := .bitmap data },
          changes_since_save := db.changes_since_save + 1 })
    | _ => (0, db)
  | none =>
    let base := List.replicate (byteIndex + 1) 0
    let data := if value then base.set byteIndex (1 <<< bitIndex) else base
    (0,
      { items := assocPut db.items key { value := .bitmap data, expires_at := none },
        changes_since_save := db.changes_since_save + 1 })

/-! ### HyperLogLog operations (src/db/ops/hyperloglog.rs) -/

/-- Trailing zero count of a w-bit word (u64::trailing_zeros of 0 is 64). -/
def trailingZerosAux : Nat → Nat → Nat
  | 0, _ => 0
  | w + 1, n => if n % 2 = 1 then 0 else trailingZerosAux w (n / 2) + 1

/-- u64::trailing_zeros. -/
def trailingZeros64 (n : Nat) : Nat := trailingZerosAux 64 (n % 2 ^ 64)

/-- HyperLogLogData::add with the SipHash value supplied by an oracle
(the hash is a pure 64-bit function of the element bytes). -/
def hllAdd (hash : BStr → Nat) (registers : List Nat) (element : BStr) :
    Bool × List Nat :=
  let h := hash element % 2 ^ 64
  let index := h % 2 ^ 14
  let remaining := h / 2 ^ 14
  let rank := trailingZeros64 remaining + 1
  if registers.getD index 0 < rank then (true, registers.set index rank)
  else (false, registers)

/-- HyperLogLogOps::pfadd: entry(key) or_insert a fresh HyperLogLog; on
any other existing variant the match falls through to false with no error
and no modification. -/
def pfadd (hash : BStr → Nat) (db : DBM) (key : BStr) (elements : List BStr)
    (now : Nat) : Bool × DBM :=
  let db := (check_expiration db key now).2
  let addAll : List Nat → Bool × List Nat := fun regs =>
    elements.foldl
      (fun acc e =>
        let r := hllAdd hash acc.2 e
        (acc.1 || r.1, r.2))
      (false, regs)
  match assocGet db.items key with
  | some entry =>
    match entry.value with
    | .hyperloglog regs =>
      let (modified, regs) := addAll regs
      (modified,
        { items := assocPut db.items key { entry with value := .hyperloglog regs },
          changes_since_save :=
            if modified then db.changes_since_save + 1 else db.changes_since_save })
    | _ => (false, db)
  | none =>
    let (modified, regs) := addAll (List.replicate 16384 0)
    (modified,
      { items := assocPut db.items key { value := .hyperloglog regs, expires_at := none },
        changes_since_save :=
          if modified then db.changes_since_save + 1 else db.changes_since_save })

/-! ### Stream operations (src/db/ops/stream.rs, StreamData in types.rs) -/

/-- StreamData::add (with StreamData::next_id inlined for the None case):
a caller-supplied ID is pushed unconditionally, with no comparison
against the IDs already stored; only automatic assignment consults
last_id. -/
def streamDataAdd (entries : List StreamEntryM) (lastId : Nat) (id : Option BStr)
    (fields : List (BStr × BStr)) (nowMs : Nat) :
    BStr × List StreamEntryM × Nat :=
  match id with
  | some i => (i, entries ++ [{ id := i, fields := fields, timestamp := nowMs }], lastId)
  | none =>
    let newLast := lastId + 1
    let genId := natDecimal nowMs ++ 45 :: natDecimal newLast
    (genId, entries ++ [{ id := genId, fields := fields, timestamp := nowMs }], newLast)

/-- StreamOps::xadd.  The Vec of field pairs is collected into a map
(later duplicates win, as HashMap::from_iter does). -/
def xadd (db : DBM) (key : BStr) (id : Option BStr) (fields : List (BStr × BStr))
    (now nowMs : Nat) : Except BStr BStr × DBM :=
  let db := (check_expiration db key now).2
  let fieldsMap := fields.foldl (fun m kv => assocPut m kv.1 kv.2) []
  match assocGet db.items key with
  | some entry =>
    match entry.value with
    | .stream entries lastId =>
      let r := streamDataAdd entries lastId id fieldsMap nowMs
      (.ok r.1,
        { items := assocPut db.items key { entry with value := .stream r.2.1 r.2.2 },
          changes_since_save := db.changes_since_save + 1 })
    | _ => (.error wrongTypeMsg, db)
  | none =>
    let r := streamDataAdd [] 0 id fieldsMap nowMs
    (.ok r.1,
      { items := assocPut db.items key { value := .stream r.2.1 r.2.2, expires_at := none },
        changes_since_save := db.changes_since_save + 1 })

/-! ### Command handlers (src/commands/mod.rs)

The interpreter holds the shared DB plus the AOF handle.  An AOF append
touches the file system, so its outcome enters the model as an explicit
Except argument (Aof::append with fsync policy Always returns Err exactly
when the write_all or the sync_all fails). -/

/-- The SET command arm of Interpreter::execute: mutate the keyspace,
append to the AOF, and reply.  The Rust source reads
if let Err(e) = aof.append(..) followed only by an error! log line, so
the reply does not depend on the append outcome. -/
def setHandler (db : DBM) (key value : BStr) (aofResult : Except BStr Unit) :
    RespValue × DBM :=
  let db := setOp db key value
  match aofResult with
  | .ok _ => (.simpleString (strB ("OK")), db)
  | .error _ => (.simpleString (strB ("OK")), db)

/-- The PFADD command arm of Interpreter::execute: the append result is
discarded with a wildcard let, and the reply is the changed flag as an
Integer. -/
def pfaddHandler (hash : BStr → Nat) (db : DBM) (key : BStr) (elements : List BStr)
    (now : Nat) (_aofResult : Except BStr Unit) : RespValue × DBM :=
  let r := pfadd hash db key elements now
  (.integer (if r.1 then 1 else 0), r.2)

/-- The SETBIT command arm of Interpreter::execute. -/
def setbitHandler (db : DBM) (key : BStr) (offset : Nat) (value : Bool)
    (now : Nat) (_aofResult : Except BStr Unit) : RespValue × DBM :=
  let r := setbit db key offset value now
  (.integer r.1, r.2)

/-- The entry is present-and-unexpired predicate used as a hypothesis by
several theorems: the deadline, if any, is still in the future. -/
def entryLive (e : EntryM) (now : Nat) : Bool :=
  match e.expires_at with
  | some t => decide (now < t)
  | none => true

/-- Variant discriminant: matches DataType::List. -/
def DataTypeM.isList : DataTypeM → Bool
  | .list _ => true
  | _ => false

/-- Variant discriminant: matches DataType::String. -/
def DataTypeM.isString : DataTypeM → Bool
  | .string _ => true
  | _ => false

/-- Variant discriminant: matches DataType::Bitmap. -/
def DataTypeM.isBitmap : DataTypeM → Bool
  | .bitmap _ => true
  | _ => false

/-- Variant discriminant: matches DataType::HyperLogLog. -/
def DataTypeM.isHLL : DataTypeM → Bool
  | .hyperloglog _ => true
  | _ => false

/-! ### RDB snapshot (src/persistence/snapshot.rs)

The save path serializes each live entry into an opcode-tagged record;
the load path parses records back, re-anchoring expiry deadlines to the
load-time clock.  Byte writers and readers mirror write_string,
write_length, read_string, read_length and the per-variant payload code.
The writer side goes through a BufWriter to a temp file followed by an
atomic rename; the byte sequence produced is what matters here. -/

/-- b"HEXRDB02" (the version 02 magic). -/
def magicBytes : BStr := strB ("HEXRDB02")

/-- b"HEXRDB01" (the version 01 magic, accepted by load). -/
def magicV1 : BStr := strB ("HEXRDB01")

/-- u32::to_le_bytes. -/
def encodeU32 (n : Nat) : List Nat :=
  [n % 256, n / 2 ^ 8 % 256, n / 2 ^ 16 % 256, n / 2 ^ 24 % 256]

/-- u64::to_le_bytes. -/
def encodeU64 (n : Nat) : List Nat :=
  [n % 256, n / 2 ^ 8 % 256, n / 2 ^ 16 % 256, n / 2 ^ 24 % 256,
   n / 2 ^ 32 % 256, n / 2 ^ 40 % 256, n / 2 ^ 48 % 256, n / 2 ^ 56 % 256]

/-- Little-endian value of a byte list (from_le_bytes). -/
def decodeLE (l : List Nat) : Nat := l.foldr (fun b acc => b + 256 * acc) 0

/-- write_string: u32 little-endian byte length, then the bytes. -/
def write_string (s : BStr) : List Nat := encodeU32 s.length ++ s

/-- LIST / SET payload: length, then that many strings. -/
def listPayload (xs : List BStr) : List Nat :=
  encodeU32 xs.length ++ xs.flatMap write_string

/-- HASH payload: length, then field and value string pairs. -/
def hashPayload (h : List (BStr × BStr)) : List Nat :=
  encodeU32 h.length ++ h.flatMap (fun kv => write_string kv.1 ++ write_string kv.2)

/-- ZSET payload: length, then member string and f64 score bit pairs. -/
def zsetPayload (m : List (BStr × Nat)) : List Nat :=
  encodeU32 m.length ++ m.flatMap (fun ms => write_string ms.1 ++ encodeU64 ms.2)

/-- BITMAP payload: length, then the raw bytes. -/
def bitmapPayload (d : List Nat) : List Nat := encodeU32 d.length ++ d

/-- One serialized stream entry: id, u64 timestamp, field count, pairs. -/
def streamEntryBytes (e : StreamEntryM) : List Nat :=
  write_string e.id ++ (encodeU64 e.timestamp ++ (encodeU32 e.fields.length ++
    e.fields.flatMap (fun kv => write_string kv.1 ++ write_string kv.2)))

/-- STREAM payload: entry count, entries, then last_id as u64. -/
def streamPayload (entries : List StreamEntryM) (lastId : Nat) : List Nat :=
  encodeU32 entries.length ++ entries.flatMap streamEntryBytes ++ encodeU64 lastId

/-- GEO payload: count, then name, f64 latitude bits, f64 longitude bits
(latitude first, as the source writes it). -/
def geoPayload (locs : List (BStr × GeoLocM)) : List Nat :=
  encodeU32 locs.length ++
    locs.flatMap (fun nl => write_string nl.1 ++ (encodeU64 nl.2.latitude ++ encodeU64 nl.2.longitude))

/-- HYPERLOGLOG payload: register count, then the register bytes. -/
def hllPayload (regs : List Nat) : List Nat := encodeU32 regs.length ++ regs

/-- The opcode-tagged record for one key and value. -/
def valueRecord (k : BStr) (v : DataTypeM) : List Nat :=
  match v with
  | .string s => 0 :: (write_string k ++ write_string s)
  | .list xs => 1 :: (write_string k ++ listPayload xs)
  | .set xs => 2 :: (write_string k ++ listPayload xs)
  | .zset m => 3 :: (write_string k ++ zsetPayload m)
  | .hash h => 4 :: (write_string k ++ hashPayload h)
  | .bitmap d => 5 :: (write_string k ++ bitmapPayload d)
  | .stream es last => 6 :: (write_string k ++ streamPayload es last)
  | .geo locs => 7 :: (write_string k ++ geoPayload locs)
  | .hyperloglog regs => 8 :: (write_string k ++ hllPayload regs)

/-- Bytes save emits for one keyspace entry at save time tSave: an
already-expired entry is skipped entirely; a live deadline becomes a
0xFD EXPIRE record carrying the remaining milliseconds. -/
def entryRecord (tSave : Nat) (p : BStr × EntryM) : List Nat :=
  match p.2.expires_at with
  | some t =>
    if t > tSave then 253 :: (encodeU64 (t - tSave) ++ valueRecord p.1 p.2.value) else []
  | none => valueRecord p.1 p.2.value

/-- Model of snapshot::save: magic, one record per live entry, EOF. -/
def save (tSave : Nat) (db : DBM) : List Nat :=
  magicBytes ++ db.items.flatMap (entryRecord tSave) ++ [255]

/-- Reader::read_exact of n bytes. -/
def readBytesR (n : Nat) (b : List Nat) : Option (List Nat × List Nat) :=
  if n ≤ b.length then some (b.take n, b.drop n) else none

/-- read_length: four bytes, little-endian u32. -/
def read_length (b : List Nat) : Option (Nat × List Nat) :=
  match readBytesR 4 b with
  | some (l, rest) => some (decodeLE l, rest)
  | none => none

/-- Eight bytes, little-endian u64. -/
def readU64 (b : List Nat) : Option (Nat × List Nat) :=
  match readBytesR 8 b with
  | some (l, rest) => some (decodeLE l, rest)
  | none => none

/-- read_string: length then bytes (the UTF-8 validation of the source
always succeeds on bytes that came out of a Rust String and is modeled
as the identity). -/
def read_string (b : List Nat) : Option (BStr × List Nat) :=
  match read_length b with
  | some (n, rest) => readBytesR n rest
  | none => none

/-- Loop reading n strings. -/
def readStringsR : Nat → List Nat → Option (List BStr × List Nat)
  | 0, b => some ([], b)
  | n + 1, b =>
    match read_string b with
    | some (s, b) =>
      match readStringsR n b with
      | some (ss, b) => some (s :: ss, b)
      | none => none
    | none => none

/-- Loop reading n string pairs (HASH fields, stream entry fields). -/
def readPairsR : Nat → List Nat → Option (List (BStr × BStr) × List Nat)
  | 0, b => some ([], b)
  | n + 1, b =>
    match read_string b with
    | some (f, b) =>
      match read_string b with
      | some (v, b) =>
        match readPairsR n b with
        | some (ps, b) => some ((f, v) :: ps, b)
        | none => none
      | none => none
    | none => none

/-- Loop reading n ZSET members (string plus f64 bits). -/
def readZMembersR : Nat → List Nat → Option (List (BStr × Nat) × List Nat)
  | 0, b => some ([], b)
  | n + 1, b =>
    match read_string b with
    | some (m, b) =>
      match readU64 b with
      | some (score, b) =>
        match readZMembersR n b with
        | some (ms, b) => some ((m, score) :: ms, b)
        | none => none
      | none => none
    | none => none

/-- Loop reading n GEO members (name, latitude bits, longitude bits). -/
def readGeoR : Nat → List Nat → Option (List (BStr × GeoLocM) × List Nat)
  | 0, b => some ([], b)
  | n + 1, b =>
    match read_string b with
    | some (name, b) =>
      match readU64 b with
      | some (lat, b) =>
        match readU64 b with
        | some (lon, b) =>
          match readGeoR n b with
          | some (ls, b) => some ((name, { longitude := lon, latitude := lat }) :: ls, b)
          | none => none
        | none => none
      | none => none
    | none => none

/-- Loop reading n stream entries. -/
def readStreamEntriesR : Nat → List Nat → Option (List StreamEntryM × List Nat)
  | 0, b => some ([], b)
  | n + 1, b =>
    match read_string b with
    | some (id, b) =>
      match readU64 b with
      | some (ts, b) =>
        match read_length b with
        | some (fc, b) =>
          match readPairsR fc b with
          | some (fs, b) =>
            match readStreamEntriesR n b with
            | some (es, b) =>
              some ({ id := id, fields := fs, timestamp := ts } :: es, b)
            | none => none
          | none => none
        | none => none
      | none => none
    | none => none

/-- The expiry deadline an entry gets when loaded with pending EXPIRE
milliseconds: Instant::now() + Duration::from_millis(ms). -/
def pendingDeadline (tLoad : Nat) (pending : Option Nat) : Option Nat :=
  pending.map (fun ms => tLoad + ms)

/-- Record loop of snapshot::load.  Fuel-structural; every iteration
consumes at least the opcode byte, so the fuel chosen by load never runs
out.  v2 gates the opcodes that version 01 files may not contain.
none models an Err return (bad opcode or truncated record). -/
def loadLoopF (v2 : Bool) (tLoad : Nat) :
    Nat → Option Nat → List (BStr × EntryM) → List Nat → Option (List (BStr × EntryM))
  | 0, _, _, _ => none
  | fuel + 1, pending, acc, bytes =>
    match bytes with
    | [] => some acc
    | op :: rest =>
      if op = 255 then some acc
      else if op = 253 then
        match readBytesR 8 rest with
        | some (ttl, rest) => loadLoopF v2 tLoad fuel (some (decodeLE ttl)) acc rest
        | none => none
      else if op = 0 then
        match read_string rest with
        | some (k, rest) =>
          match read_string rest with
          | some (v, rest) =>
            loadLoopF v2 tLoad fuel none
              (assocPut acc k { value := .string v, expires_at := pendingDeadline tLoad pending }) rest
          | none => none
        | none => none
      else if op = 1 then
        match read_string rest with
        | some (k, rest) =>
          match read_length rest with
          | some (n, rest) =>
            match readStringsR n rest with
            | some (xs, rest) =>
              loadLoopF v2 tLoad fuel none
                (assocPut acc k { value := .list xs, expires_at := pendingDeadline tLoad pending }) rest
            | none => none
          | none => none
        | none => none
      else if op = 2 then
        match read_string rest with
        | some (k, rest) =>
          match read_length rest with
          | some (n, rest) =>
            match readStringsR n rest with
            | some (xs, rest) =>
              loadLoopF v2 tLoad fuel none
                (assocPut acc k { value := .set xs, expires_at := pendingDeadline tLoad pending }) rest
            | none => none
          | none => none
        | none => none
      else if op = 3 then
        match read_string rest with
        | some (k, rest) =>
          match read_length rest with
          | some (n, rest) =>
            match readZMembersR n rest with
            | some (ms, rest) =>
              loadLoopF v2 tLoad fuel none
                (assocPut acc k { value := .zset ms, expires_at := pendingDeadline tLoad pending }) rest
            | none => none
          | none => none
        | none => none
      else if op = 4 then
        match read_string rest with
        | some (k, rest) =>
          match read_length rest with
          | some (n, rest) =>
            match readPairsR n rest with
            | some (ps, rest) =>
              loadLoopF v2 tLoad fuel none
                (assocPut acc k { value := .hash ps, expires_at := pendingDeadline tLoad pending }) rest
            | none => none
          | none => none
        | none => none
      else if op = 5 ∧ v2 = true then
        match read_string rest with
        | some (k, rest) =>
          match read_length rest with
          | some (n, rest) =>
            match readBytesR n rest with
            | some (d, rest) =>
              loadLoopF v2 tLoad fuel none
                (assocPut acc k { value := .bitmap d, expires_at := pendingDeadline tLoad pending }) rest
            | none => none
          | none => none
        | none => none
      else if op = 6 ∧ v2 = true then
        match read_string rest with
        | some (k, rest) =>
          match read_length rest with
          | some (n, rest) =>
            match readStreamEntriesR n rest with
            | some (es, rest) =>
              match readU64 rest with
              | some (lastId, rest) =>
                loadLoopF v2 tLoad fuel none
                  (assocPut acc k
                    { value := .stream es lastId, expires_at := pendingDeadline tLoad pending }) rest
              | none => none
            | none => none
          | none => none
        | none => none
      else if op = 7 ∧ v2 = true then
        match read_string rest with
        | some (k, rest) =>
          match read_length rest with
          | some (n, rest) =>
            match readGeoR n rest with
            | some (ls, rest) =>
              loadLoopF v2 tLoad fuel none
                (assocPut acc k { value := .geo ls, expires_at := pendingDeadline tLoad pending }) rest
            | none => none
          | none => none
        | none => none
      else if op = 8 ∧ v2 = true then
        match read_string rest with
        | some (k, rest) =>
          match read_length rest with
          | some (n, rest) =>
            if n = 16384 then
              match readBytesR n rest with
              | some (regs, rest) =>
                loadLoopF v2 tLoad fuel none
                  (assocPut acc k
                    { value := .hyperloglog regs, expires_at := pendingDeadline tLoad pending }) rest
              | none => none
            else
              match readBytesR n rest with
              | some (_, rest) => loadLoopF v2 tLoad fuel none acc rest
              | none => none
          | none => none
        | none => none
      else none

/-- Model of snapshot::load: verify the magic (either version), then
parse records into a fresh keyspace. -/
def load (bytes : List Nat) (tLoad : Nat) : Option (List (BStr × EntryM)) :=
  if bytes.take 8 = magicBytes then
    loadLoopF true tLoad (bytes.length + 1) none [] (bytes.drop 8)
  else if bytes.take 8 = magicV1 then
    loadLoopF false tLoad (bytes.length + 1) none [] (bytes.drop 8)
  else none

/-- Whether an entry is still live at save time (expired ones are
skipped by save). -/
def liveAt (tSave : Nat) (e : EntryM) : Bool :=
  match e.expires_at with
  | some t => decide (t > tSave)
  | none => true

/-- The deadline re-anchoring that a save at tSave and a load at tLoad
perform: remaining TTL is preserved, the absolute instant moves. -/
def reAnchor (tSave tLoad : Nat) (e : EntryM) : EntryM :=
  { e with expires_at := e.expires_at.map (fun t => tLoad + (t - tSave)) }

/-- Byte strings the u32 length framing can carry. -/
def strWf (s : BStr) : Prop := s.length < 2 ^ 32

/-- Field widths a value must respect so that the fixed-width framing is
lossless; HyperLogLog registers must have the register count that load
insists on (HyperLogLogData::new always allocates exactly 16384). -/
def valueWf : DataTypeM → Prop
  | .string s => strWf s
  | .list xs => xs.length < 2 ^ 32 ∧ ∀ x ∈ xs, strWf x
  | .hash h => h.length < 2 ^ 32 ∧ ∀ kv ∈ h, strWf kv.1 ∧ strWf kv.2
  | .set xs => xs.length < 2 ^ 32 ∧ ∀ x ∈ xs, strWf x
  | .zset m => m.length < 2 ^ 32 ∧ ∀ kv ∈ m, strWf kv.1 ∧ kv.2 < 2 ^ 64
  | .bitmap d => d.length < 2 ^ 32
  | .stream es lastId => es.length < 2 ^ 32 ∧ lastId < 2 ^ 64 ∧
      ∀ e ∈ es, strWf e.id ∧ e.timestamp < 2 ^ 64 ∧ e.fields.length < 2 ^ 32 ∧
        ∀ kv ∈ e.fields, strWf kv.1 ∧ strWf kv.2
  | .geo locs => locs.length < 2 ^ 32 ∧
      ∀ kv ∈ locs, strWf kv.1 ∧ kv.2.latitude < 2 ^ 64 ∧ kv.2.longitude < 2 ^ 64
  | .hyperloglog regs => regs.length = 16384

/-- Entry well-formedness: value widths plus a u64 deadline. -/
def entryWf (e : EntryM) : Prop :=
  valueWf e.value ∧ ∀ t ∈ e.expires_at, t < 2 ^ 64

/-- Keyspace well-formedness: distinct keys (a HashMap invariant) and
per-entry width bounds. -/
def dbWf (items : List (BStr × EntryM)) : Prop :=
  (items.map Prod.fst).Nodup ∧ ∀ p ∈ items, strWf p.1 ∧ entryWf p.2

/-! ### Decimal print and parse lemmas -/

theorem decimalDigits_fold (f : Nat) :
    ∀ n a, n ≤ f →
      List.foldl (fun acc b => acc * 10 + (b - 48)) a (decimalDigits f n) =
        a * 10 ^ (decimalDigits f n).length + n := by
  induction f with
  | zero =>
    intro n a hn
    interval_cases n
    simp [decimalDigits]
  | succ f ih =>
    intro n a hn
    by_cases h0 : n = 0
    · simp [decimalDigits, h0]
    · have hdiv : n / 10 ≤ f := by omega
      have := ih (n / 10) a hdiv
      simp only [decimalDigits, h0, if_false, List.foldl_append, List.foldl_cons,
        List.foldl_nil, List.length_append, List.length_cons, List.length_nil, this]
      have hmod : n % 10 + 48 - 48 = n % 10 := by omega
      rw [hmod]
      have : a * 10 ^ ((decimalDigits f (n / 10)).length + (0 + 1)) =
          a * 10 ^ (decimalDigits f (n / 10)).length * 10 := by ring
      rw [this]
      omega

theorem decimalDigits_allDigits (f : Nat) :
    ∀ n, allDigits (decimalDigits f n) = true := by
  induction f with
  | zero => intro n; simp [decimalDigits, allDigits]
  | succ f ih =>
    intro n
    by_cases h0 : n = 0
    · simp [decimalDigits, h0, allDigits]
    · have hd := ih (n / 10)
      simp only [allDigits] at hd
      simp only [decimalDigits, h0, if_false, allDigits, List.all_append, hd, List.all_cons,
        List.all_nil, Bool.and_true, Bool.true_and, Bool.and_eq_true, decide_eq_true_eq]
      omega

theorem decimalDigits_ne_nil (f n : Nat) (hn : n ≠ 0) (hf : f ≠ 0) :
    decimalDigits f n ≠ [] := by
  match f with
  | 0 => exact absurd rfl hf
  | f + 1 => simp [decimalDigits, hn]

theorem natDecimal_allDigits (n : Nat) : allDigits (natDecimal n) = true := by
  by_cases h0 : n = 0
  · simp [natDecimal, h0, allDigits]
  · simp [natDecimal, h0, decimalDigits_allDigits]

theorem natDecimal_ne_nil (n : Nat) : natDecimal n ≠ [] := by
  by_cases h0 : n = 0
  · simp [natDecimal, h0]
  · simp only [natDecimal, h0, if_false]
    exact decimalDigits_ne_nil n n h0 h0

theorem decDigitsVal_natDecimal (n : Nat) : decDigitsVal (natDecimal n) = n := by
  by_cases h0 : n = 0
  · simp [natDecimal, h0, decDigitsVal]
  · simp only [natDecimal, h0, if_false, decDigitsVal]
    have := decimalDigits_fold n n 0 (le_refl n)
    omega

theorem parseI64Digits_natDecimal (n : Nat) (neg : Bool) (r : Int)
    (hr : r = if neg then -((n : Nat) : Int) else ((n : Nat) : Int))
    (h1 : -(2 ^ 63) ≤ r) (h2 : r ≤ 2 ^ 63 - 1) :
    parseI64Digits (natDecimal n) neg = some r := by
  have hne := natDecimal_ne_nil n
  have hdig := natDecimal_allDigits n
  have hval := decDigitsVal_natDecimal n
  simp only [parseI64Digits, List.isEmpty_iff, hne, if_false, hdig, if_true, hval]
  rw [← hr, if_pos ⟨h1, h2⟩]

theorem natDecimal_head_digit (n : Nat) :
    ∀ b ∈ natDecimal n, 48 ≤ b ∧ b ≤ 57 := by
  intro b hb
  have := natDecimal_allDigits n
  simp only [allDigits, List.all_eq_true, Bool.and_eq_true, decide_eq_true_eq] at this
  exact this b hb

theorem parseI64_intDecimal (i : Int) (hlo : -(2 ^ 63) ≤ i) (hhi : i ≤ 2 ^ 63 - 1) :
    parseI64 (intDecimal i) = some i := by
  by_cases hneg : i < 0
  · simp only [intDecimal, hneg, if_true]
    have habs : ((i.natAbs : Nat) : Int) = -i := by
      omega
    have : parseI64 (45 :: natDecimal i.natAbs) = parseI64Digits (natDecimal i.natAbs) true := by
      simp [parseI64]
    rw [this, parseI64Digits_natDecimal i.natAbs true i (by rw [habs]; simp) hlo hhi]
  · simp only [intDecimal, hneg, if_false]
    have htn : ((i.toNat : Nat) : Int) = i := by omega
    have hhead : parseI64 (natDecimal i.toNat) = parseI64Digits (natDecimal i.toNat) false := by
      rcases hh : natDecimal i.toNat with _ | ⟨b, rest⟩
      · exact absurd hh (natDecimal_ne_nil i.toNat)
      · have hb : 48 ≤ b ∧ b ≤ 57 := by
          apply natDecimal_head_digit i.toNat
          rw [hh]; exact List.mem_cons_self b rest
        have hb43 : b ≠ 43 := by omega
        have hb45 : b ≠ 45 := by omega
        simp only [parseI64]
        split
        · simp_all
        · simp_all
        · simp_all
        · rfl
    rw [hhead, parseI64Digits_natDecimal i.toNat false i (by rw [htn]; simp) hlo hhi]

/-! ### List-op lemmas -/

theorem lpushBlock_eq_append (values old : List BStr) :
    lpushBlock values old = values ++ old := by
  induction values using List.reverseRecOn generalizing old with
  | nil => simp [lpushBlock]
  | append_singleton vs v ih =>
    have hstep := ih (v :: old)
    simp only [lpushBlock, List.reverse_append, List.reverse_singleton, List.singleton_append,
      List.foldl_cons] at hstep ⊢
    rw [hstep]
    simp

/-! ### Association-list lemmas and expiry helpers -/

theorem assocGet_put_self {β : Type} (l : List (BStr × β)) (k : BStr) (v : β) :
    assocGet (assocPut l k v) k = some v := by
  induction l with
  | nil => simp [assocPut, assocGet]
  | cons p rest ih =>
    by_cases h : p.1 = k
    · simp [assocPut, assocGet, h]
    · simp [assocPut, assocGet, h, ih]

theorem assocGet_put_ne {β : Type} (l : List (BStr × β)) (k k2 : BStr) (v : β)
    (h : k2 ≠ k) : assocGet (assocPut l k v) k2 = assocGet l k2 := by
  induction l with
  | nil => simp [assocPut, assocGet, Ne.symm h]
  | cons p rest ih =>
    by_cases hp : p.1 = k
    · subst hp
      simp only [assocPut, if_true]
      simp [assocGet, Ne.symm h]
    · simp only [assocPut, hp, if_false]
      by_cases hp2 : p.1 = k2
      · simp [assocGet, hp2]
      · simp [assocGet, hp2, ih]

theorem mem_map_fst_of_get {β : Type} (l : List (BStr × β)) (k : BStr) (v : β)
    (h : assocGet l k = some v) : k ∈ l.map Prod.fst := by
  induction l with
  | nil => simp [assocGet] at h
  | cons p rest ih =>
    by_cases hp : p.1 = k
    · simp [hp]
    · simp only [assocGet, hp, if_false] at h
      simp [ih h]

theorem check_expiration_live (db : DBM) (key : BStr) (now : Nat) (e : EntryM)
    (hget : assocGet db.items key = some e) (hlive : entryLive e now = true) :
    check_expiration db key now = (true, db) := by
  cases he : e.expires_at with
  | some t =>
    simp only [entryLive, he, decide_eq_true_eq] at hlive
    simp only [check_expiration, hget, he]
    rw [if_neg (by omega)]
  | none => simp [check_expiration, hget, he]

theorem check_expiration_absent (db : DBM) (key : BStr) (now : Nat)
    (hget : assocGet db.items key = none) :
    check_expiration db key now = (true, db) := by
  simp only [check_expiration, hget]

/-! ### RESP roundtrip lemmas -/

theorem hasCRLF_eq_false_of_no_cr (l : BStr) (h : ∀ b ∈ l, b ≠ 13) :
    hasCRLF l = false := by
  induction l with
  | nil => rfl
  | cons b t ih =>
    cases t with
    | nil => rfl
    | cons c t2 =>
      have hb : b ≠ 13 := h b (List.mem_cons_self b _)
      have ht : hasCRLF (c :: t2) = false :=
        ih (fun x hx => h x (List.mem_cons_of_mem _ hx))
      simp [hasCRLF, hb, ht]

theorem scanLine_append (p rest : BStr) (h : hasCRLF p = false) :
    scanLine (p ++ 13 :: 10 :: rest) = some (p, p.length + 2) := by
  induction p with
  | nil => simp [scanLine]
  | cons b p2 ih =>
    cases p2 with
    | nil =>
      have hb : ¬ (b = 13 ∧ (13 : Nat) = 10) := by omega
      simp [scanLine, hb]
    | cons c p3 =>
      have hh : ¬ (b = 13 ∧ c = 10) ∧ hasCRLF (c :: p3) = false := by
        by_cases hbc : b = 13 ∧ c = 10
        · exfalso
          simp [hasCRLF, hbc.1, hbc.2] at h
        · refine ⟨hbc, ?_⟩
          simp only [hasCRLF, Bool.or_eq_false_iff] at h
          exact h.2
      have hrec := ih hh.2
      simp only [List.cons_append] at hrec ⊢
      simp [scanLine, hh.1, hrec]

theorem read_line_append (s rest : BStr) (h : hasCRLF s = false) :
    read_line (s ++ 13 :: 10 :: rest) = .ok (some (s, s.length + 2)) := by
  have hscan := scanLine_append s rest h
  rcases s with _ | ⟨b, s2⟩
  · simp only [List.nil_append] at hscan ⊢
    simp [read_line, hscan]
  · simp only [List.cons_append] at hscan ⊢
    simp [read_line, hscan]

theorem natDecimal_no_cr (n : Nat) : ∀ b ∈ natDecimal n, b ≠ 13 := by
  intro b hb
  have := natDecimal_head_digit n b hb
  omega

theorem intDecimal_no_cr (i : Int) : ∀ b ∈ intDecimal i, b ≠ 13 := by
  intro b hb
  unfold intDecimal at hb
  split at hb
  · rcases List.mem_cons.mp hb with rfl | hb2
    · omega
    · have := natDecimal_head_digit i.natAbs b hb2
      omega
  · have := natDecimal_head_digit i.toNat b hb
    omega

theorem parse_int_intDecimal (i : Int) (rest : BStr)
    (h1 : -(2 ^ 63) ≤ i) (h2 : i ≤ 2 ^ 63 - 1) :
    parse_int (intDecimal i ++ 13 :: 10 :: rest) =
      .ok (some (i, (intDecimal i).length + 2)) := by
  have hcr : hasCRLF (intDecimal i) = false :=
    hasCRLF_eq_false_of_no_cr _ (intDecimal_no_cr i)
  simp [parse_int, read_line_append _ _ hcr, parseI64_intDecimal i h1 h2]

theorem intDecimal_ofNat (n : Nat) : intDecimal (n : Int) = natDecimal n := by
  simp [intDecimal]

theorem parse_int_natDecimal (n : Nat) (rest : BStr) (h : n < 2 ^ 63) :
    parse_int (natDecimal n ++ 13 :: 10 :: rest) =
      .ok (some ((n : Int), (natDecimal n).length + 2)) := by
  have := parse_int_intDecimal (n : Int) rest (by omega) (by omega)
  rwa [intDecimal_ofNat] at this

theorem decimalDigits_length_le (f : Nat) :
    ∀ n k, n < 10 ^ k → (decimalDigits f n).length ≤ k := by
  induction f with
  | zero => intro n k _; simp [decimalDigits]
  | succ f ih =>
    intro n k hnk
    by_cases h0 : n = 0
    · simp [decimalDigits, h0]
    · have hk : k ≠ 0 := by
        rintro rfl
        simp at hnk
        omega
      obtain ⟨k2, rfl⟩ : ∃ k2, k = k2 + 1 := ⟨k - 1, by omega⟩
      have hdiv : n / 10 < 10 ^ k2 := by
        apply Nat.div_lt_of_lt_mul
        rw [pow_succ] at hnk
        omega
      simp only [decimalDigits, h0, if_false, List.length_append, List.length_cons,
        List.length_nil]
      have := ih (n / 10) k2 hdiv
      omega

theorem natDecimal_length_le (n : Nat) (h : n < 2 ^ 63) : (natDecimal n).length ≤ 19 := by
  by_cases h0 : n = 0
  · simp [natDecimal, h0]
  · simp only [natDecimal, h0, if_false]
    exact decimalDigits_length_le n n 19 (lt_of_lt_of_le h (by norm_num))

/- Parsing a canonical serialization consumes exactly its bytes and
returns the original value, for any trailing bytes and any fuel above
the serialization length (the array loop runs the element parser at one
fuel step less, which the length bound accommodates since the array
header is three or more bytes). -/
mutual
theorem parse_ser_val : ∀ (v : RespValue), Representable v →
    ∀ (rest : BStr) (fuel : Nat), (RespValue.serialize v).length < fuel →
      parseReqF fuel (RespValue.serialize v ++ rest) =
        .ok (some (v, (RespValue.serialize v).length))
  | .simpleString s, hrep, rest, fuel, hfuel => by
    obtain ⟨f2, rfl⟩ : ∃ f2, fuel = f2 + 1 := ⟨fuel - 1, by omega⟩
    cases hrep with
    | simpleString _ hcrlf =>
      have hb : RespValue.serialize (.simpleString s) ++ rest = 43 :: (s ++ 13 :: 10 :: rest) := by
        simp [RespValue.serialize]
      rw [hb]
      simp only [parseReqF]
      simp [read_line_append _ _ hcrlf, RespValue.serialize]
  | .error m, hrep, rest, fuel, hfuel => by
    obtain ⟨f2, rfl⟩ : ∃ f2, fuel = f2 + 1 := ⟨fuel - 1, by omega⟩
    cases hrep with
    | error _ hcrlf =>
      have hb : RespValue.serialize (.error m) ++ rest = 45 :: (m ++ 13 :: 10 :: rest) := by
        simp [RespValue.serialize]
      rw [hb]
      simp only [parseReqF]
      simp [read_line_append _ _ hcrlf, RespValue.serialize]
  | .integer i, hrep, rest, fuel, hfuel => by
    obtain ⟨f2, rfl⟩ : ∃ f2, fuel = f2 + 1 := ⟨fuel - 1, by omega⟩
    cases hrep with
    | integer _ hlo hhi =>
      have hb : RespValue.serialize (.integer i) ++ rest =
          58 :: (intDecimal i ++ 13 :: 10 :: rest) := by
        simp [RespValue.serialize]
      rw [hb]
      simp only [parseReqF]
      simp [parse_int_intDecimal i rest hlo hhi, RespValue.serialize]
  | .bulkString none, _, rest, fuel, hfuel => by
    obtain ⟨f2, rfl⟩ : ∃ f2, fuel = f2 + 1 := ⟨fuel - 1, by omega⟩
    have hpi : parse_int (45 :: 49 :: 13 :: 10 :: rest) = .ok (some (-1, 4)) := by
      have := parse_int_intDecimal (-1) rest (by norm_num) (by norm_num)
      simpa [intDecimal, natDecimal, decimalDigits] using this
    have hb : RespValue.serialize (.bulkString none) ++ rest =
        36 :: 45 :: 49 :: 13 :: 10 :: rest := by
      simp [RespValue.serialize]
    rw [hb]
    simp only [parseReqF]
    simp [hpi, RespValue.serialize]
  | .bulkString (some s), hrep, rest, fuel, hfuel => by
    obtain ⟨f2, rfl⟩ : ∃ f2, fuel = f2 + 1 := ⟨fuel - 1, by omega⟩
    cases hrep with
    | bulkSome _ hslen =>
      have hb : RespValue.serialize (.bulkString (some s)) ++ rest =
          36 :: (natDecimal s.length ++ 13 :: 10 :: (s ++ 13 :: 10 :: rest)) := by
        simp [RespValue.serialize]
      have hdig : (natDecimal s.length).length ≤ 19 := natDecimal_length_le _ hslen
      rw [hb]
      simp only [parseReqF]
      rw [if_neg (by norm_num : ¬ (36 : Nat) = 43), if_neg (by norm_num : ¬ (36 : Nat) = 45),
        if_neg (by norm_num : ¬ (36 : Nat) = 58), if_pos trivial]
      simp only [parse_int_natDecimal s.length (s ++ 13 :: 10 :: rest) hslen]
      have hne : ¬ ((s.length : Int) = -1) := by omega
      have hemod0 : (s.length : Int).emod (2 ^ 64) = (s.length : Int) :=
        Int.emod_eq_of_lt (by omega) (by omega)
      have hemod : ((s.length : Int).emod (2 ^ 64)).toNat = s.length := by
        rw [hemod0, Int.toNat_natCast]
      simp only [hne, if_false, hemod]
      have hlen1 : (36 :: (natDecimal s.length ++ 13 :: 10 :: (s ++ 13 :: 10 :: rest))).length =
          (natDecimal s.length).length + s.length + rest.length + 5 := by
        simp
        omega
      have hmod1 : (1 + ((natDecimal s.length).length + 2) + s.length + 2) % 2 ^ 64 =
          1 + ((natDecimal s.length).length + 2) + s.length + 2 :=
        Nat.mod_eq_of_lt (by omega)
      have hmod2 : (1 + ((natDecimal s.length).length + 2) + s.length) % 2 ^ 64 =
          1 + ((natDecimal s.length).length + 2) + s.length :=
        Nat.mod_eq_of_lt (by omega)
      simp only [hmod1, hmod2, hlen1]
      rw [if_pos (by omega), if_pos (by constructor <;> omega)]
      have hdrop : (36 :: (natDecimal s.length ++ 13 :: 10 :: (s ++ 13 :: 10 :: rest))).drop
          (1 + ((natDecimal s.length).length + 2)) = s ++ 13 :: 10 :: rest := by
        rw [show 36 :: (natDecimal s.length ++ 13 :: 10 :: (s ++ 13 :: 10 :: rest)) =
          (36 :: (natDecimal s.length ++ [13, 10])) ++ (s ++ 13 :: 10 :: rest) by simp,
          show 1 + ((natDecimal s.length).length + 2) =
            (36 :: (natDecimal s.length ++ [13, 10])).length by simp; omega]
        exact List.drop_left _ _
      rw [hdrop]
      have htake : (s ++ 13 :: 10 :: rest).take
          (1 + ((natDecimal s.length).length + 2) + s.length -
            (1 + ((natDecimal s.length).length + 2))) = s := by
        rw [show 1 + ((natDecimal s.length).length + 2) + s.length -
          (1 + ((natDecimal s.length).length + 2)) = s.length by omega]
        rw [show (13 : Nat) :: 10 :: rest = [13, 10] ++ rest by simp, ← List.append_assoc]
        rw [show s.length = s.length + 0 by omega]
        simp [List.take_append]
      rw [htake]
      simp [RespValue.serialize]
      omega
  | .array none, _, rest, fuel, hfuel => by
    obtain ⟨f2, rfl⟩ : ∃ f2, fuel = f2 + 1 := ⟨fuel - 1, by omega⟩
    have hpi : parse_int (45 :: 49 :: 13 :: 10 :: rest) = .ok (some (-1, 4)) := by
      have := parse_int_intDecimal (-1) rest (by norm_num) (by norm_num)
      simpa [intDecimal, natDecimal, decimalDigits] using this
    have hb : RespValue.serialize (.array none) ++ rest =
        42 :: 45 :: 49 :: 13 :: 10 :: rest := by
      simp [RespValue.serialize]
    rw [hb]
    simp only [parseReqF]
    simp [hpi, RespValue.serialize]
  | .array (some items), hrep, rest, fuel, hfuel => by
    obtain ⟨f2, rfl⟩ : ∃ f2, fuel = f2 + 1 := ⟨fuel - 1, by omega⟩
    cases hrep with
    | arraySome _ hlen hreps =>
      have hb : RespValue.serialize (.array (some items)) ++ rest =
          42 :: (natDecimal items.length ++ 13 :: 10 ::
            (RespList.serialize items ++ rest)) := by
        simp [RespValue.serialize]
      rw [hb]
      simp only [parseReqF]
      rw [if_neg (by norm_num : ¬ (42 : Nat) = 43), if_neg (by norm_num : ¬ (42 : Nat) = 45),
        if_neg (by norm_num : ¬ (42 : Nat) = 58), if_neg (by norm_num : ¬ (42 : Nat) = 36),
        if_pos trivial]
      simp only [parse_int_natDecimal items.length (RespList.serialize items ++ rest) hlen]
      have hne : ¬ ((items.length : Int) = -1) := by omega
      simp only [hne, if_false, Int.toNat_natCast]
      have hdrop : (42 :: (natDecimal items.length ++ 13 :: 10 ::
          (RespList.serialize items ++ rest))).drop
          (1 + ((natDecimal items.length).length + 2)) =
          RespList.serialize items ++ rest := by
        rw [show 42 :: (natDecimal items.length ++ 13 :: 10 ::
            (RespList.serialize items ++ rest)) =
          (42 :: (natDecimal items.length ++ [13, 10])) ++
            (RespList.serialize items ++ rest) by simp,
          show 1 + ((natDecimal items.length).length + 2) =
            (42 :: (natDecimal items.length ++ [13, 10])).length by simp; omega]
        exact List.drop_left _ _
      rw [hdrop]
      have hsz : (RespValue.serialize (.array (some items))).length =
          (natDecimal items.length).length + 3 + (RespList.serialize items).length := by
        simp [RespValue.serialize]
        omega
      have hfl : (RespList.serialize items).length < f2 := by
        rw [hsz] at hfuel
        omega
      rw [parse_ser_list items hreps rest f2 hfl]
      simp [RespValue.serialize]
      omega

theorem parse_ser_list : ∀ (l : RespList), RepresentableList l →
    ∀ (rest : BStr) (fuel : Nat), (RespList.serialize l).length < fuel →
      parseItemsAux (parseReqF fuel) l.length (RespList.serialize l ++ rest) =
        .ok (some (l, (RespList.serialize l).length))
  | .nil, _, rest, fuel, _ => by
    simp [RespList.serialize, RespList.length, parseItemsAux]
  | .cons v tl, hrep, rest, fuel, hlen => by
    cases hrep with
    | cons _ _ hv htl =>
      have hsplit : (RespList.serialize (.cons v tl)).length =
          (RespValue.serialize v).length + (RespList.serialize tl).length := by
        simp [RespList.serialize]
      have hv_len : (RespValue.serialize v).length < fuel := by omega
      have htl_len : (RespList.serialize tl).length < fuel := by omega
      have h1 := parse_ser_val v hv (RespList.serialize tl ++ rest) fuel hv_len
      have h2 := parse_ser_list tl htl rest fuel htl_len
      have hbuf : RespList.serialize (.cons v tl) ++ rest =
          RespValue.serialize v ++ (RespList.serialize tl ++ rest) := by
        simp [RespList.serialize]
      rw [show RespList.length (.cons v tl) = RespList.length tl + 1 from rfl, hbuf]
      simp only [parseItemsAux, h1]
      rw [List.drop_left, h2]
      simp [RespList.serialize]
end

/-! ### Claim theorems -/

/-! ### RDB encode/decode roundtrip lemmas -/

theorem encodeU32_length (n : Nat) : (encodeU32 n).length = 4 := rfl

theorem encodeU64_length (n : Nat) : (encodeU64 n).length = 8 := rfl

theorem decodeLE_encodeU32 (n : Nat) (h : n < 2 ^ 32) : decodeLE (encodeU32 n) = n := by
  simp [encodeU32, decodeLE]
  omega

theorem decodeLE_encodeU64 (n : Nat) (h : n < 2 ^ 64) : decodeLE (encodeU64 n) = n := by
  simp [encodeU64, decodeLE]
  omega

theorem readBytesR_append (l rest : List Nat) : readBytesR l.length (l ++ rest) = some (l, rest) := by
  rw [readBytesR, if_pos (by simp)]
  rw [List.take_left, List.drop_left]

theorem read_length_encode (n : Nat) (rest : List Nat) (h : n < 2 ^ 32) :
    read_length (encodeU32 n ++ rest) = some (n, rest) := by
  have hb : readBytesR 4 (encodeU32 n ++ rest) = some (encodeU32 n, rest) := by
    have h0 := readBytesR_append (encodeU32 n) rest
    rwa [encodeU32_length] at h0
  simp only [read_length, hb]
  rw [decodeLE_encodeU32 n h]

theorem readU64_encode (n : Nat) (rest : List Nat) (h : n < 2 ^ 64) :
    readU64 (encodeU64 n ++ rest) = some (n, rest) := by
  have hb : readBytesR 8 (encodeU64 n ++ rest) = some (encodeU64 n, rest) := by
    have h0 := readBytesR_append (encodeU64 n) rest
    rwa [encodeU64_length] at h0
  simp only [readU64, hb]
  rw [decodeLE_encodeU64 n h]

theorem read_string_write (s : BStr) (rest : List Nat) (h : strWf s) :
    read_string (write_string s ++ rest) = some (s, rest) := by
  have h1 : read_length (encodeU32 s.length ++ (s ++ rest)) = some (s.length, s ++ rest) :=
    read_length_encode _ _ h
  have h2 : readBytesR s.length (s ++ rest) = some (s, rest) := readBytesR_append s rest
  simp only [write_string, List.append_assoc, read_string, h1, h2]

theorem readStringsR_flat (xs : List BStr) (rest : List Nat) (h : ∀ x ∈ xs, strWf x) :
    readStringsR xs.length (xs.flatMap write_string ++ rest) = some (xs, rest) := by
  induction xs generalizing rest with
  | nil => simp [readStringsR]
  | cons x xs ih =>
    have h1 : read_string (write_string x ++ (xs.flatMap write_string ++ rest)) =
        some (x, xs.flatMap write_string ++ rest) :=
      read_string_write _ _ (h x (by simp))
    have h2 := ih rest (fun y hy => h y (by simp [hy]))
    simp only [List.flatMap_cons, List.append_assoc, List.length_cons, readStringsR, h1, h2]

theorem readPairsR_flat (ps : List (BStr × BStr)) (rest : List Nat)
    (h : ∀ kv ∈ ps, strWf kv.1 ∧ strWf kv.2) :
    readPairsR ps.length
      (ps.flatMap (fun kv => write_string kv.1 ++ write_string kv.2) ++ rest) =
      some (ps, rest) := by
  induction ps generalizing rest with
  | nil => simp [readPairsR]
  | cons p ps ih =>
    obtain ⟨f, v⟩ := p
    obtain ⟨hf, hv⟩ := h (f, v) (by simp)
    have h1 : read_string (write_string f ++ (write_string v ++
        (ps.flatMap (fun kv => write_string kv.1 ++ write_string kv.2) ++ rest))) =
        some (f, write_string v ++
          (ps.flatMap (fun kv => write_string kv.1 ++ write_string kv.2) ++ rest)) :=
      read_string_write _ _ hf
    have h2 : read_string (write_string v ++
        (ps.flatMap (fun kv => write_string kv.1 ++ write_string kv.2) ++ rest)) =
        some (v, ps.flatMap (fun kv => write_string kv.1 ++ write_string kv.2) ++ rest) :=
      read_string_write _ _ hv
    have h3 := ih rest (fun q hq => h q (by simp [hq]))
    simp only [List.flatMap_cons, List.append_assoc, List.length_cons, readPairsR, h1, h2, h3]

theorem readZMembersR_flat (ms : List (BStr × Nat)) (rest : List Nat)
    (h : ∀ kv ∈ ms, strWf kv.1 ∧ kv.2 < 2 ^ 64) :
    readZMembersR ms.length
      (ms.flatMap (fun kv => write_string kv.1 ++ encodeU64 kv.2) ++ rest) =
      some (ms, rest) := by
  induction ms generalizing rest with
  | nil => simp [readZMembersR]
  | cons p ps ih =>
    obtain ⟨m, sc⟩ := p
    obtain ⟨hm, hs⟩ := h (m, sc) (by simp)
    have h1 : read_string (write_string m ++ (encodeU64 sc ++
        (ps.flatMap (fun kv => write_string kv.1 ++ encodeU64 kv.2) ++ rest))) =
        some (m, encodeU64 sc ++
          (ps.flatMap (fun kv => write_string kv.1 ++ encodeU64 kv.2) ++ rest)) :=
      read_string_write _ _ hm
    have h2 : readU64 (encodeU64 sc ++
        (ps.flatMap (fun kv => write_string kv.1 ++ encodeU64 kv.2) ++ rest)) =
        some (sc, ps.flatMap (fun kv => write_string kv.1 ++ encodeU64 kv.2) ++ rest) :=
      readU64_encode _ _ hs
    have h3 := ih rest (fun q hq => h q (by simp [hq]))
    simp only [List.flatMap_cons, List.append_assoc, List.length_cons, readZMembersR, h1, h2, h3]

theorem readGeoR_flat (ls : List (BStr × GeoLocM)) (rest : List Nat)
    (h : ∀ kv ∈ ls, strWf kv.1 ∧ kv.2.latitude < 2 ^ 64 ∧ kv.2.longitude < 2 ^ 64) :
    readGeoR ls.length
      (ls.flatMap (fun nl => write_string nl.1 ++
        (encodeU64 nl.2.latitude ++ encodeU64 nl.2.longitude)) ++ rest) =
      some (ls, rest) := by
  induction ls generalizing rest with
  | nil => simp [readGeoR]
  | cons p ps ih =>
    obtain ⟨name, loc⟩ := p
    obtain ⟨hn, hla, hlo⟩ := h (name, loc) (by simp)
    have h1 : read_string (write_string name ++ (encodeU64 loc.latitude ++
        (encodeU64 loc.longitude ++
          (ps.flatMap (fun nl => write_string nl.1 ++
            (encodeU64 nl.2.latitude ++ encodeU64 nl.2.longitude)) ++ rest)))) =
        some (name, encodeU64 loc.latitude ++ (encodeU64 loc.longitude ++
          (ps.flatMap (fun nl => write_string nl.1 ++
            (encodeU64 nl.2.latitude ++ encodeU64 nl.2.longitude)) ++ rest))) :=
      read_string_write _ _ hn
    have h2 : readU64 (encodeU64 loc.latitude ++ (encodeU64 loc.longitude ++
        (ps.flatMap (fun nl => write_string nl.1 ++
          (encodeU64 nl.2.latitude ++ encodeU64 nl.2.longitude)) ++ rest))) =
        some (loc.latitude, encodeU64 loc.longitude ++
          (ps.flatMap (fun nl => write_string nl.1 ++
            (encodeU64 nl.2.latitude ++ encodeU64 nl.2.longitude)) ++ rest)) :=
      readU64_encode _ _ hla
    have h3 : readU64 (encodeU64 loc.longitude ++
        (ps.flatMap (fun nl => write_string nl.1 ++
          (encodeU64 nl.2.latitude ++ encodeU64 nl.2.longitude)) ++ rest)) =
        some (loc.longitude, ps.flatMap (fun nl => write_string nl.1 ++
          (encodeU64 nl.2.latitude ++ encodeU64 nl.2.longitude)) ++ rest) :=
      readU64_encode _ _ hlo
    have h4 := ih rest (fun q hq => h q (by simp [hq]))
    simp only [List.flatMap_cons, List.append_assoc, List.length_cons, readGeoR, h1, h2, h3, h4]

theorem readStreamEntriesR_flat (es : List StreamEntryM) (rest : List Nat)
    (h : ∀ e ∈ es, strWf e.id ∧ e.timestamp < 2 ^ 64 ∧ e.fields.length < 2 ^ 32 ∧
      ∀ kv ∈ e.fields, strWf kv.1 ∧ strWf kv.2) :
    readStreamEntriesR es.length (es.flatMap streamEntryBytes ++ rest) = some (es, rest) := by
  induction es generalizing rest with
  | nil => simp [readStreamEntriesR]
  | cons e es ih =>
    obtain ⟨hid, hts, hfc, hfs⟩ := h e (by simp)
    have h1 : read_string (write_string e.id ++ (encodeU64 e.timestamp ++
        (encodeU32 e.fields.length ++
          ((e.fields.flatMap (fun kv => write_string kv.1 ++ write_string kv.2)) ++
            (es.flatMap streamEntryBytes ++ rest))))) =
        some (e.id, encodeU64 e.timestamp ++ (encodeU32 e.fields.length ++
          ((e.fields.flatMap (fun kv => write_string kv.1 ++ write_string kv.2)) ++
            (es.flatMap streamEntryBytes ++ rest)))) :=
      read_string_write _ _ hid
    have h2 : readU64 (encodeU64 e.timestamp ++ (encodeU32 e.fields.length ++
        ((e.fields.flatMap (fun kv => write_string kv.1 ++ write_string kv.2)) ++
          (es.flatMap streamEntryBytes ++ rest)))) =
        some (e.timestamp, encodeU32 e.fields.length ++
          ((e.fields.flatMap (fun kv => write_string kv.1 ++ write_string kv.2)) ++
            (es.flatMap streamEntryBytes ++ rest))) :=
      readU64_encode _ _ hts
    have h3 : read_length (encodeU32 e.fields.length ++
        ((e.fields.flatMap (fun kv => write_string kv.1 ++ write_string kv.2)) ++
          (es.flatMap streamEntryBytes ++ rest))) =
        some (e.fields.length,
          (e.fields.flatMap (fun kv => write_string kv.1 ++ write_string kv.2)) ++
            (es.flatMap streamEntryBytes ++ rest)) :=
      read_length_encode _ _ hfc
    have h4 : readPairsR e.fields.length
        ((e.fields.flatMap (fun kv => write_string kv.1 ++ write_string kv.2)) ++
          (es.flatMap streamEntryBytes ++ rest)) =
        some (e.fields, es.flatMap streamEntryBytes ++ rest) :=
      readPairsR_flat _ _ hfs
    have h5 := ih rest (fun q hq => h q (by simp [hq]))
    simp only [List.flatMap_cons, streamEntryBytes, List.append_assoc, List.length_cons,
      readStreamEntriesR, h1, h2, h3, h4, h5]

theorem loadLoopF_eof (tLoad fuel : Nat) (pending : Option Nat) (acc : List (BStr × EntryM)) :
    loadLoopF true tLoad (fuel + 1) pending acc [255] = some acc := by
  simp [loadLoopF]

theorem loadLoopF_expire_step (tLoad fuel ms : Nat) (acc : List (BStr × EntryM))
    (rest : List Nat) (hms : ms < 2 ^ 64) :
    loadLoopF true tLoad (fuel + 1) none acc ((253 : Nat) :: (encodeU64 ms ++ rest)) =
      loadLoopF true tLoad fuel (some ms) acc rest := by
  have h1 : readBytesR 8 (encodeU64 ms ++ rest) = some (encodeU64 ms, rest) := by
    have h0 := readBytesR_append (encodeU64 ms) rest
    rwa [encodeU64_length] at h0
  simp only [loadLoopF]
  norm_num [h1, decodeLE_encodeU64 ms hms]

theorem loadLoopF_value_step (tLoad fuel : Nat) (pending : Option Nat)
    (acc : List (BStr × EntryM)) (k : BStr) (v : DataTypeM) (rest : List Nat)
    (hk : strWf k) (hv : valueWf v) :
    loadLoopF true tLoad (fuel + 1) pending acc (valueRecord k v ++ rest) =
      loadLoopF true tLoad fuel none
        (assocPut acc k { value := v, expires_at := pendingDeadline tLoad pending }) rest := by
  cases v with
  | string s =>
    have h1 : read_string (write_string k ++ (write_string s ++ rest)) =
        some (k, write_string s ++ rest) := read_string_write _ _ hk
    have h2 : read_string (write_string s ++ rest) = some (s, rest) :=
      read_string_write _ _ hv
    simp only [valueRecord, List.cons_append, List.append_assoc, loadLoopF]
    norm_num [h1, h2]
  | hyperloglog regs =>
    have hreg : regs.length = 16384 := hv
    have h1 : read_string (write_string k ++ (encodeU32 regs.length ++ (regs ++ rest))) =
        some (k, encodeU32 regs.length ++ (regs ++ rest)) := read_string_write _ _ hk
    have h2 : read_length (encodeU32 regs.length ++ (regs ++ rest)) =
        some (16384, regs ++ rest) := by
      rw [read_length_encode _ _ (by omega : regs.length < 2 ^ 32), hreg]
    have h3 : readBytesR 16384 (regs ++ rest) = some (regs, rest) := by
      rw [← hreg]
      exact readBytesR_append regs rest
    simp only [valueRecord, hllPayload, List.cons_append, List.append_assoc, loadLoopF]
    norm_num [h1, h2, h3]
  | list xs =>
    obtain ⟨hlen, hall⟩ : xs.length < 2 ^ 32 ∧ ∀ x ∈ xs, strWf x := hv
    have h1 : read_string (write_string k ++
        (encodeU32 xs.length ++ (xs.flatMap write_string ++ rest))) =
        some (k, encodeU32 xs.length ++ (xs.flatMap write_string ++ rest)) :=
      read_string_write _ _ hk
    have h2 : read_length (encodeU32 xs.length ++ (xs.flatMap write_string ++ rest)) =
        some (xs.length, xs.flatMap write_string ++ rest) := read_length_encode _ _ hlen
    have h3 : readStringsR xs.length (xs.flatMap write_string ++ rest) = some (xs, rest) :=
      readStringsR_flat _ _ hall
    simp only [valueRecord, listPayload, List.cons_append, List.append_assoc, loadLoopF]
    norm_num [h1, h2, h3]
  | set xs =>
    obtain ⟨hlen, hall⟩ : xs.length < 2 ^ 32 ∧ ∀ x ∈ xs, strWf x := hv
    have h1 : read_string (write_string k ++
        (encodeU32 xs.length ++ (xs.flatMap write_string ++ rest))) =
        some (k, encodeU32 xs.length ++ (xs.flatMap write_string ++ rest)) :=
      read_string_write _ _ hk
    have h2 : read_length (encodeU32 xs.length ++ (xs.flatMap write_string ++ rest)) =
        some (xs.length, xs.flatMap write_string ++ rest) := read_length_encode _ _ hlen
    have h3 : readStringsR xs.length (xs.flatMap write_string ++ rest) = some (xs, rest) :=
      readStringsR_flat _ _ hall
    simp only [valueRecord, listPayload, List.cons_append, List.append_assoc, loadLoopF]
    norm_num [h1, h2, h3]
  | hash ps =>
    obtain ⟨hlen, hall⟩ : ps.length < 2 ^ 32 ∧ ∀ kv ∈ ps, strWf kv.1 ∧ strWf kv.2 := hv
    have h1 : read_string (write_string k ++ (encodeU32 ps.length ++
        (ps.flatMap (fun kv => write_string kv.1 ++ write_string kv.2) ++ rest))) =
        some (k, encodeU32 ps.length ++
          (ps.flatMap (fun kv => write_string kv.1 ++ write_string kv.2) ++ rest)) :=
      read_string_write _ _ hk
    have h2 : read_length (encodeU32 ps.length ++
        (ps.flatMap (fun kv => write_string kv.1 ++ write_string kv.2) ++ rest)) =
        some (ps.length,
          ps.flatMap (fun kv => write_string kv.1 ++ write_string kv.2) ++ rest) :=
      read_length_encode _ _ hlen
    have h3 : readPairsR ps.length
        (ps.flatMap (fun kv => write_string kv.1 ++ write_string kv.2) ++ rest) =
        some (ps, rest) := readPairsR_flat _ _ hall
    simp only [valueRecord, hashPayload, List.cons_append, List.append_assoc, loadLoopF]
    norm_num [h1, h2, h3]
  | zset ms =>
    obtain ⟨hlen, hall⟩ : ms.length < 2 ^ 32 ∧ ∀ kv ∈ ms, strWf kv.1 ∧ kv.2 < 2 ^ 64 := hv
    have h1 : read_string (write_string k ++ (encodeU32 ms.length ++
        (ms.flatMap (fun kv => write_string kv.1 ++ encodeU64 kv.2) ++ rest))) =
        some (k, encodeU32 ms.length ++
          (ms.flatMap (fun kv => write_string kv.1 ++ encodeU64 kv.2) ++ rest)) :=
      read_string_write _ _ hk
    have h2 : read_length (encodeU32 ms.length ++
        (ms.flatMap (fun kv => write_string kv.1 ++ encodeU64 kv.2) ++ rest)) =
        some (ms.length,
          ms.flatMap (fun kv => write_string kv.1 ++ encodeU64 kv.2) ++ rest) :=
      read_length_encode _ _ hlen
    have h3 : readZMembersR ms.length
        (ms.flatMap (fun kv => write_string kv.1 ++ encodeU64 kv.2) ++ rest) =
        some (ms, rest) := readZMembersR_flat _ _ hall
    simp only [valueRecord, zsetPayload, List.cons_append, List.append_assoc, loadLoopF]
    norm_num [h1, h2, h3]
  | bitmap d =>
    have hlen : d.length < 2 ^ 32 := hv
    have h1 : read_string (write_string k ++ (encodeU32 d.length ++ (d ++ rest))) =
        some (k, encodeU32 d.length ++ (d ++ rest)) := read_string_write _ _ hk
    have h2 : read_length (encodeU32 d.length ++ (d ++ rest)) =
        some (d.length, d ++ rest) := read_length_encode _ _ hlen
    have h3 : readBytesR d.length (d ++ rest) = some (d, rest) := readBytesR_append d rest
    simp only [valueRecord, bitmapPayload, List.cons_append, List.append_assoc, loadLoopF]
    norm_num [h1, h2, h3]
  | stream es lastId =>
    obtain ⟨hlen, hlast, hall⟩ : es.length < 2 ^ 32 ∧ lastId < 2 ^ 64 ∧
        ∀ e ∈ es, strWf e.id ∧ e.timestamp < 2 ^ 64 ∧ e.fields.length < 2 ^ 32 ∧
          ∀ kv ∈ e.fields, strWf kv.1 ∧ strWf kv.2 := hv
    have h1 : read_string (write_string k ++ (encodeU32 es.length ++
        (es.flatMap streamEntryBytes ++ (encodeU64 lastId ++ rest)))) =
        some (k, encodeU32 es.length ++
          (es.flatMap streamEntryBytes ++ (encodeU64 lastId ++ rest))) :=
      read_string_write _ _ hk
    have h2 : read_length (encodeU32 es.length ++
        (es.flatMap streamEntryBytes ++ (encodeU64 lastId ++ rest))) =
        some (es.length, es.flatMap streamEntryBytes ++ (encodeU64 lastId ++ rest)) :=
      read_length_encode _ _ hlen
    have h3 : readStreamEntriesR es.length
        (es.flatMap streamEntryBytes ++ (encodeU64 lastId ++ rest)) =
        some (es, encodeU64 lastId ++ rest) := readStreamEntriesR_flat _ _ hall
    have h4 : readU64 (encodeU64 lastId ++ rest) = some (lastId, rest) :=
      readU64_encode _ _ hlast
    simp only [valueRecord, streamPayload, List.cons_append, List.append_assoc, loadLoopF]
    norm_num [h1, h2, h3, h4]
  | geo locs =>
    obtain ⟨hlen, hall⟩ : locs.length < 2 ^ 32 ∧
        ∀ kv ∈ locs, strWf kv.1 ∧ kv.2.latitude < 2 ^ 64 ∧ kv.2.longitude < 2 ^ 64 := hv
    have h1 : read_string (write_string k ++ (encodeU32 locs.length ++
        (locs.flatMap (fun nl => write_string nl.1 ++
          (encodeU64 nl.2.latitude ++ encodeU64 nl.2.longitude)) ++ rest))) =
        some (k, encodeU32 locs.length ++
          (locs.flatMap (fun nl => write_string nl.1 ++
            (encodeU64 nl.2.latitude ++ encodeU64 nl.2.longitude)) ++ rest)) :=
      read_string_write _ _ hk
    have h2 : read_length (encodeU32 locs.length ++
        (locs.flatMap (fun nl => write_string nl.1 ++
          (encodeU64 nl.2.latitude ++ encodeU64 nl.2.longitude)) ++ rest)) =
        some (locs.length, locs.flatMap (fun nl => write_string nl.1 ++
          (encodeU64 nl.2.latitude ++ encodeU64 nl.2.longitude)) ++ rest) :=
      read_length_encode _ _ hlen
    have h3 : readGeoR locs.length
        (locs.flatMap (fun nl => write_string nl.1 ++
          (encodeU64 nl.2.latitude ++ encodeU64 nl.2.longitude)) ++ rest) =
        some (locs, rest) := readGeoR_flat _ _ hall
    simp only [valueRecord, geoPayload, List.cons_append, List.append_assoc, loadLoopF]
    norm_num [h1, h2, h3]

theorem assocPut_fresh {β : Type} (l : List (BStr × β)) (k : BStr) (v : β)
    (h : ∀ p ∈ l, p.1 ≠ k) : assocPut l k v = l ++ [(k, v)] := by
  induction l with
  | nil => simp [assocPut]
  | cons p rest ih =>
    obtain ⟨k2, w⟩ := p
    have hne : k2 ≠ k := h (k2, w) (by simp)
    simp only [assocPut, if_neg hne, List.cons_append,
      ih (fun q hq => h q (by simp [hq])), List.nil_append]

theorem valueRecord_length_pos (k : BStr) (v : DataTypeM) : 0 < (valueRecord k v).length := by
  cases v <;> simp [valueRecord]

theorem loadLoopF_records (tSave tLoad : Nat) (items : List (BStr × EntryM)) :
    ∀ (acc : List (BStr × EntryM)) (fuel : Nat),
      (∀ p ∈ items, strWf p.1 ∧ entryWf p.2) →
      (∀ p ∈ items, ∀ q ∈ acc, q.1 ≠ p.1) →
      (items.map Prod.fst).Nodup →
      (items.flatMap (entryRecord tSave)).length < fuel →
      loadLoopF true tLoad fuel none acc (items.flatMap (entryRecord tSave) ++ [255]) =
        some (acc ++ (items.filter (fun p => liveAt tSave p.2)).map
          (fun p => (p.1, reAnchor tSave tLoad p.2))) := by
  induction items with
  | nil =>
    intro acc fuel _ _ _ hfuel
    obtain ⟨f, rfl⟩ : ∃ f, fuel = f + 1 := ⟨fuel - 1, by omega⟩
    simpa using loadLoopF_eof tLoad f none acc
  | cons p items ih =>
    intro acc fuel hwf hdisj hnodup hfuel
    obtain ⟨k, e⟩ := p
    obtain ⟨hk, hew⟩ := hwf (k, e) (by simp)
    obtain ⟨hv, hexp⟩ := hew
    have hwf2 : ∀ q ∈ items, strWf q.1 ∧ entryWf q.2 := fun q hq => hwf q (by simp [hq])
    have hnodup2 : (items.map Prod.fst).Nodup := (List.nodup_cons.mp hnodup).2
    have hknot : k ∉ items.map Prod.fst := (List.nodup_cons.mp hnodup).1
    obtain ⟨v, exp⟩ := e
    cases exp with
    | none =>
      have hrec : entryRecord tSave (k, (⟨v, none⟩ : EntryM)) = valueRecord k v := rfl
      have hvpos := valueRecord_length_pos k v
      have hflat : ((k, (⟨v, none⟩ : EntryM)) :: items).flatMap (entryRecord tSave) =
          valueRecord k v ++ items.flatMap (entryRecord tSave) := by
        rw [List.flatMap_cons, hrec]
      rw [hflat] at hfuel ⊢
      obtain ⟨f, rfl⟩ : ∃ f, fuel = f + 1 := ⟨fuel - 1, by
        rw [List.length_append] at hfuel
        omega⟩
      rw [List.append_assoc, loadLoopF_value_step tLoad f none acc k v _ hk hv]
      have hput : assocPut acc k { value := v, expires_at := pendingDeadline tLoad none } =
          acc ++ [(k, { value := v, expires_at := pendingDeadline tLoad none })] :=
        assocPut_fresh _ _ _ (fun q hq => hdisj (k, ⟨v, none⟩) (by simp) q hq)
      rw [hput, ih _ f hwf2 ?hdisj2 hnodup2 ?hfuel2]
      case hdisj2 =>
        intro q hq r hr
        rcases List.mem_append.mp hr with hr1 | hr2
        · exact hdisj q (by simp [hq]) r hr1
        · simp only [List.mem_singleton] at hr2
          subst hr2
          intro hcontra
          apply hknot
          rw [show k = q.1 from hcontra]
          exact List.mem_map_of_mem Prod.fst hq
      case hfuel2 =>
        rw [List.length_append] at hfuel
        omega
      simp [liveAt, reAnchor, pendingDeadline, List.filter_cons]
    | some t =>
      by_cases hlive : t > tSave
      · have hrec : entryRecord tSave (k, (⟨v, some t⟩ : EntryM)) =
            253 :: (encodeU64 (t - tSave) ++ valueRecord k v) := by
          show (if t > tSave then 253 :: (encodeU64 (t - tSave) ++ valueRecord k v) else []) =
            253 :: (encodeU64 (t - tSave) ++ valueRecord k v)
          exact if_pos hlive
        have hvpos := valueRecord_length_pos k v
        have hflat : ((k, (⟨v, some t⟩ : EntryM)) :: items).flatMap (entryRecord tSave) =
            253 :: (encodeU64 (t - tSave) ++ valueRecord k v) ++
              items.flatMap (entryRecord tSave) := by
          rw [List.flatMap_cons, hrec]
        rw [hflat] at hfuel ⊢
        obtain ⟨f, rfl⟩ : ∃ f, fuel = f + 1 + 1 := ⟨fuel - 2, by
          simp only [List.length_append, List.length_cons, encodeU64_length] at hfuel
          omega⟩
        have ht64 : t < 2 ^ 64 := hexp t rfl
        have hstep1 : (253 :: (encodeU64 (t - tSave) ++ valueRecord k v) ++
            items.flatMap (entryRecord tSave) ++ [255]) =
            253 :: (encodeU64 (t - tSave) ++
              (valueRecord k v ++ (items.flatMap (entryRecord tSave) ++ [255]))) := by
          simp [List.append_assoc]
        rw [hstep1, loadLoopF_expire_step tLoad (f + 1) (t - tSave) acc _ (by omega),
          loadLoopF_value_step tLoad f (some (t - tSave)) acc k v _ hk hv]
        have hput : assocPut acc k
            { value := v, expires_at := pendingDeadline tLoad (some (t - tSave)) } =
            acc ++
              [(k, { value := v, expires_at := pendingDeadline tLoad (some (t - tSave)) })] :=
          assocPut_fresh _ _ _ (fun q hq => hdisj (k, ⟨v, some t⟩) (by simp) q hq)
        rw [hput, ih _ f hwf2 ?hdisj2 hnodup2 ?hfuel2]
        case hdisj2 =>
          intro q hq r hr
          rcases List.mem_append.mp hr with hr1 | hr2
          · exact hdisj q (by simp [hq]) r hr1
          · simp only [List.mem_singleton] at hr2
            subst hr2
            intro hcontra
            apply hknot
            rw [show k = q.1 from hcontra]
            exact List.mem_map_of_mem Prod.fst hq
        case hfuel2 =>
          simp only [List.length_append, List.length_cons, encodeU64_length] at hfuel
          omega
        have hlv : liveAt tSave ⟨v, some t⟩ = true := by
          simp [liveAt]; omega
        simp [List.filter_cons, hlv, reAnchor, pendingDeadline]
      · have hrec : entryRecord tSave (k, (⟨v, some t⟩ : EntryM)) = [] := by
          show (if t > tSave then 253 :: (encodeU64 (t - tSave) ++ valueRecord k v) else []) = []
          exact if_neg hlive
        have hflat : ((k, (⟨v, some t⟩ : EntryM)) :: items).flatMap (entryRecord tSave) =
            items.flatMap (entryRecord tSave) := by
          rw [List.flatMap_cons, hrec, List.nil_append]
        rw [hflat] at hfuel ⊢
        rw [ih acc fuel hwf2 (fun q hq => hdisj q (by simp [hq])) hnodup2 hfuel]
        have hlv : liveAt tSave ⟨v, some t⟩ = false := by
          simp [liveAt]; omega
        simp [List.filter_cons, hlv]

/-- C1 (counterexample).  The claim states that under fsync policy Always
a failed AOF append makes the SET response an error frame.  At a concrete
failing append the SET arm of Interpreter::execute still replies +OK: the
append error is only logged. -/
theorem C1_counterexample_set_aof_failure_still_ok :
    (setHandler { items := [], changes_since_save := 0 } (strB ("k")) (strB ("v"))
        (.error (strB ("io error")))).1 = .simpleString (strB ("OK")) ∧
    (setHandler { items := [], changes_since_save := 0 } (strB ("k")) (strB ("v"))
        (.error (strB ("io error")))).1.isErrorFrame = false :=
  ⟨rfl, rfl⟩

/-- C1 (amended).  Whatever the AOF append outcome (success or failure,
under any fsync policy), the SET handler replies +OK and the in-memory
write has happened; the client cannot observe a persistence failure. -/
theorem C1_amended_set_reply_ignores_aof_outcome :
    ∀ (db : DBM) (key value : BStr) (aofResult : Except BStr Unit),
      setHandler db key value aofResult = (.simpleString (strB ("OK")), setOp db key value) := by
  intro db key value r
  cases r <;> rfl

/-- C3 (counterexample).  LPUSH of the argument list a, b onto an absent
key stores the list a, b - the FIRST argument ends up at the head - while
the claim (matching Redis) requires the last argument at the head, that
is the list b, a. -/
theorem C3_counterexample_lpush_first_arg_at_head :
    (lpush { items := [], changes_since_save := 0 } (strB ("k"))
        [strB ("a"), strB ("b")] 0).2.items =
      [(strB ("k"), { value := .list [strB ("a"), strB ("b")], expires_at := none })] ∧
    [strB ("a"), strB ("b")] ≠ [strB ("b"), strB ("a")] := by
  refine ⟨rfl, ?_⟩
  decide

/-- C3 (amended).  LPUSH prepends the argument block in the given order
(the first argument ends up at the head, diverging from Redis): the new
list is values ++ old.  RPUSH appends left to right: old ++ values. -/
theorem C3_amended_push_order (db : DBM) (key : BStr) (values : List BStr) (now : Nat) :
    (assocGet db.items key = none →
      lpush db key values now =
        (.ok values.length,
          { items := assocPut db.items key { value := .list values, expires_at := none },
            changes_since_save := db.changes_since_save + 1 })) ∧
    (∀ e old, assocGet db.items key = some e → e.value = .list old → entryLive e now = true →
      lpush db key values now =
        (.ok (values ++ old).length,
          { items := assocPut db.items key { e with value := .list (values ++ old) },
            changes_since_save := db.changes_since_save + 1 })) ∧
    (∀ e old, assocGet db.items key = some e → e.value = .list old → entryLive e now = true →
      rpush db key values now =
        (.ok (old ++ values).length,
          { items := assocPut db.items key { e with value := .list (old ++ values) },
            changes_since_save := db.changes_since_save + 1 })) := by
  refine ⟨?_, ?_, ?_⟩
  · intro hget
    simp [lpush, check_expiration_absent db key now hget, hget, lpushBlock_eq_append]
  · intro e old hget hv hlive
    simp [lpush, check_expiration_live db key now e hget hlive, hget, hv, lpushBlock_eq_append]
  · intro e old hget hv hlive
    simp [rpush, check_expiration_live db key now e hget hlive, hget, hv]

/-- C3 (witness).  The amended statement evaluated at concrete inputs:
pushing a, b onto an existing list x gives a, b, x for LPUSH and
x, a, b for RPUSH. -/
theorem C3_amended_push_order_witness :
    assocGet [(strB ("k"),
        ({ value := .list [strB ("x")], expires_at := none } : EntryM))] (strB ("k")) =
      some { value := .list [strB ("x")], expires_at := none } ∧
    lpush { items := [(strB ("k"), { value := .list [strB ("x")], expires_at := none })],
            changes_since_save := 0 } (strB ("k")) [strB ("a"), strB ("b")] 0 =
      (.ok 3,
        { items := [(strB ("k"),
            { value := .list [strB ("a"), strB ("b"), strB ("x")], expires_at := none })],
          changes_since_save := 1 }) ∧
    rpush { items := [(strB ("k"), { value := .list [strB ("x")], expires_at := none })],
            changes_since_save := 0 } (strB ("k")) [strB ("a"), strB ("b")] 0 =
      (.ok 3,
        { items := [(strB ("k"),
            { value := .list [strB ("x"), strB ("a"), strB ("b")], expires_at := none })],
          changes_since_save := 1 }) := by
  refine ⟨rfl, ?_, ?_⟩
  · have h := (C3_amended_push_order
      { items := [(strB ("k"), { value := .list [strB ("x")], expires_at := none })],
        changes_since_save := 0 } (strB ("k")) [strB ("a"), strB ("b")] 0).2.1
      { value := .list [strB ("x")], expires_at := none } [strB ("x")] rfl rfl rfl
    exact h
  · have h := (C3_amended_push_order
      { items := [(strB ("k"), { value := .list [strB ("x")], expires_at := none })],
        changes_since_save := 0 } (strB ("k")) [strB ("a"), strB ("b")] 0).2.2
      { value := .list [strB ("x")], expires_at := none } [strB ("x")] rfl rfl rfl
    exact h

/-- C2 (counterexample).  PFADD against a key holding a Hash replies
Integer 0 - not a WRONGTYPE error frame - refuting the claim that every
wrong-variant operation returns a TypeMismatch error.  (The entry is
left unchanged.) -/
theorem C2_counterexample_pfadd_wrong_type_no_error :
    pfaddHandler (fun _ => 0)
        { items := [(strB ("h"), { value := .hash [(strB ("f"), strB ("v"))], expires_at := none })],
          changes_since_save := 0 }
        (strB ("h")) [strB ("x")] 0 (.ok ()) =
      (.integer 0,
        { items := [(strB ("h"), { value := .hash [(strB ("f"), strB ("v"))], expires_at := none })],
          changes_since_save := 0 }) ∧
    (RespValue.integer 0).isErrorFrame = false :=
  ⟨rfl, rfl⟩

/-- C2 (amended).  Wrong-variant access leaves the entry unchanged in
every case, but only the operations with an error channel (LPUSH here)
signal WRONGTYPE; SETBIT and PFADD against an existing mismatched key
(other than SETBIT on a String key, which converts that entry to a
Bitmap in place) return 0 / false with no error and no keyspace
change. -/
theorem C2_amended_wrong_type_behavior
    (db : DBM) (key : BStr) (now : Nat) (e : EntryM)
    (hget : assocGet db.items key = some e) (hlive : entryLive e now = true) :
    (e.value.isList = false → ∀ values, lpush db key values now = (.error wrongTypeMsg, db)) ∧
    (e.value.isHLL = false → ∀ hash elements, pfadd hash db key elements now = (false, db)) ∧
    (e.value.isBitmap = false → e.value.isString = false →
      ∀ offset value, setbit db key offset value now = (0, db)) := by
  obtain ⟨v, exp⟩ := e
  refine ⟨?_, ?_, ?_⟩
  · intro hnl values
    simp only [lpush, check_expiration_live db key now _ hget hlive, hget]
    cases v <;> simp_all [DataTypeM.isList]
  · intro hnh hash elements
    simp only [pfadd, check_expiration_live db key now _ hget hlive, hget]
    cases v <;> simp_all [DataTypeM.isHLL]
  · intro hnb hns offset value
    simp only [setbit, check_expiration_live db key now _ hget hlive, hget]
    cases v <;> simp_all [DataTypeM.isBitmap, DataTypeM.isString]

/-- C2 (witness).  The amended statement evaluated against a key holding
a Hash: LPUSH errors with WRONGTYPE and changes nothing, PFADD and
SETBIT return false / 0 and change nothing. -/
theorem C2_amended_wrong_type_behavior_witness :
    lpush { items := [(strB ("h"), { value := .hash [(strB ("f"), strB ("v"))], expires_at := none })],
            changes_since_save := 5 } (strB ("h")) [strB ("x")] 0 =
      (.error wrongTypeMsg,
        { items := [(strB ("h"), { value := .hash [(strB ("f"), strB ("v"))], expires_at := none })],
          changes_since_save := 5 }) ∧
    pfadd (fun _ => 0)
        { items := [(strB ("h"), { value := .hash [(strB ("f"), strB ("v"))], expires_at := none })],
          changes_since_save := 5 } (strB ("h")) [strB ("x")] 0 =
      (false,
        { items := [(strB ("h"), { value := .hash [(strB ("f"), strB ("v"))], expires_at := none })],
          changes_since_save := 5 }) ∧
    setbit { items := [(strB ("h"), { value := .hash [(strB ("f"), strB ("v"))], expires_at := none })],
             changes_since_save := 5 } (strB ("h")) 7 true 0 =
      (0,
        { items := [(strB ("h"), { value := .hash [(strB ("f"), strB ("v"))], expires_at := none })],
          changes_since_save := 5 }) := by
  have h := C2_amended_wrong_type_behavior
    { items := [(strB ("h"), { value := .hash [(strB ("f"), strB ("v"))], expires_at := none })],
      changes_since_save := 5 } (strB ("h")) 0
    { value := .hash [(strB ("f"), strB ("v"))], expires_at := none } rfl rfl
  exact ⟨h.1 rfl [strB ("x")], h.2.1 rfl (fun _ => 0) [strB ("x")], h.2.2 rfl rfl 7 true⟩

/-- C6 (counterexample).  A key whose deadline (5) has passed at the
observation time (10) is still listed by KEYS * and still counted by
DBSIZE, refuting the claim that ANY access at or after the deadline
observes the key as absent. -/
theorem C6_counterexample_keys_lists_expired_key :
    assocGet [(strB ("k"),
        ({ value := .string (strB ("v")), expires_at := some 5 } : EntryM))] (strB ("k")) =
      some { value := .string (strB ("v")), expires_at := some 5 } ∧
    (10 : Nat) ≥ 5 ∧
    keysOp { items := [(strB ("k"), { value := .string (strB ("v")), expires_at := some 5 })],
             changes_since_save := 0 } (strB ("*")) = [strB ("k")] ∧
    dbsizeOp { items := [(strB ("k"), { value := .string (strB ("v")), expires_at := some 5 })],
               changes_since_save := 0 } = 1 := by
  refine ⟨rfl, by omega, rfl, rfl⟩

/-- C6 (amended).  Expiry is enforced only on touch: for a key whose
deadline t has passed, EXISTS reports false, check_expiration removes the
entry and reports false, and GET returns Null after pruning the entry -
but the enumeration paths KEYS and DBSIZE read the raw map without any
expiry filter, so the key is still listed and still counted. -/
theorem C6_amended_expiry_on_touch_not_enumeration
    (db : DBM) (key : BStr) (now : Nat) (e : EntryM) (t : Nat)
    (hget : assocGet db.items key = some e) (ht : e.expires_at = some t) (hnow : now ≥ t) :
    existsOp db key now = false ∧
    check_expiration db key now = (false, { db with items := assocRemove db.items key }) ∧
    getOp db key now = (.ok none, { db with items := assocRemove db.items key }) ∧
    key ∈ keysOp db (strB ("*")) ∧
    dbsizeOp db = db.items.length := by
  have hchk : check_expiration db key now = (false, { db with items := assocRemove db.items key }) := by
    simp only [check_expiration, hget, ht]
    rw [if_pos (by omega)]
  refine ⟨?_, hchk, ?_, ?_, rfl⟩
  · simp only [existsOp, hget, ht]
    simp only [decide_eq_false_iff_not]
    omega
  · simp only [getOp, hchk]
  · have : keysOp db (strB ("*")) = db.items.map Prod.fst := by
      simp [keysOp, strB]
    rw [this]
    exact mem_map_fst_of_get db.items key e hget

/-- C6 (witness).  The amended statement evaluated at the concrete
expired key of the counterexample. -/
theorem C6_amended_expiry_on_touch_witness :
    existsOp { items := [(strB ("k"), { value := .string (strB ("v")), expires_at := some 5 })],
               changes_since_save := 0 } (strB ("k")) 10 = false ∧
    strB ("k") ∈ keysOp { items := [(strB ("k"),
        { value := .string (strB ("v")), expires_at := some 5 })],
                          changes_since_save := 0 } (strB ("*")) := by
  have h := C6_amended_expiry_on_touch_not_enumeration
    { items := [(strB ("k"), { value := .string (strB ("v")), expires_at := some 5 })],
      changes_since_save := 0 } (strB ("k")) 10
    { value := .string (strB ("v")), expires_at := some 5 } 5 rfl rfl (by omega)
  exact ⟨h.1, h.2.2.2.1⟩

/-- C7 (counterexample).  LPOP of the last element leaves the emptied
List entry in the keyspace: TYPE still reports list (not none) and
EXISTS still reports true, refuting the claim that an emptied container
is removed. -/
theorem C7_counterexample_lpop_leaves_empty_list :
    lpop { items := [(strB ("l"), { value := .list [strB ("a")], expires_at := none })],
           changes_since_save := 0 } (strB ("l")) 0 =
      (.ok (some (strB ("a"))),
        { items := [(strB ("l"), { value := .list [], expires_at := none })],
          changes_since_save := 1 }) ∧
    type_of { items := [(strB ("l"), { value := .list [], expires_at := none })],
              changes_since_save := 1 } (strB ("l")) = some (strB ("list")) ∧
    some (strB ("list")) ≠ (none : Option BStr) := by
  refine ⟨rfl, rfl, by simp⟩

/-- C7 (amended).  When LPOP, RPOP, HDEL, SREM or ZREM empties its
container, the Entry stays in the keyspace holding the empty container;
a subsequent TYPE reports the container type and EXISTS reports true. -/
theorem C7_amended_empty_containers_remain
    (db : DBM) (key : BStr) (now : Nat) (e : EntryM)
    (hget : assocGet db.items key = some e) (hlive : entryLive e now = true)
    (hnoexp : e.expires_at = none) :
    (∀ x, e.value = .list [x] →
      lpop db key now =
        (.ok (some x),
          { items := assocPut db.items key { e with value := .list [] },
            changes_since_save := db.changes_since_save + 1 }) ∧
      type_of { items := assocPut db.items key { e with value := .list [] },
                changes_since_save := db.changes_since_save + 1 } key = some (strB ("list")) ∧
      existsOp { items := assocPut db.items key { e with value := .list [] },
                 changes_since_save := db.changes_since_save + 1 } key now = true) ∧
    (∀ x, e.value = .list [x] →
      rpop db key now =
        (.ok (some x),
          { items := assocPut db.items key { e with value := .list [] },
            changes_since_save := db.changes_since_save + 1 })) ∧
    (∀ f v, e.value = .hash [(f, v)] →
      hdel db key f now =
        (.ok 1,
          { items := assocPut db.items key { e with value := .hash [] },
            changes_since_save := db.changes_since_save + 1 }) ∧
      type_of { items := assocPut db.items key { e with value := .hash [] },
                changes_since_save := db.changes_since_save + 1 } key = some (strB ("hash"))) ∧
    (∀ m, e.value = .set [m] →
      srem db key m now =
        (.ok 1,
          { items := assocPut db.items key { e with value := .set [] },
            changes_since_save := db.changes_since_save + 1 }) ∧
      type_of { items := assocPut db.items key { e with value := .set [] },
                changes_since_save := db.changes_since_save + 1 } key = some (strB ("set"))) ∧
    (∀ m sc, e.value = .zset [(m, sc)] →
      zrem db key [m] now =
        (.ok 1,
          { items := assocPut db.items key { e with value := .zset [] },
            changes_since_save := db.changes_since_save + 1 }) ∧
      type_of { items := assocPut db.items key { e with value := .zset [] },
                changes_since_save := db.changes_since_save + 1 } key = some (strB ("zset"))) := by
  have hput : ∀ v : DataTypeM,
      assocGet (assocPut db.items key { e with value := v }) key = some { e with value := v } :=
    fun v => assocGet_put_self db.items key { e with value := v }
  refine ⟨?_, ?_, ?_, ?_, ?_⟩
  · intro x hv
    refine ⟨?_, ?_, ?_⟩
    · simp only [lpop, check_expiration_live db key now e hget hlive, hget, hv]
    · simp only [type_of, hput (.list [])]
      rfl
    · simp only [existsOp, hput (.list [])]
      rw [hnoexp]
  · intro x hv
    simp only [rpop, check_expiration_live db key now e hget hlive, hget, hv]
    rfl
  · intro f v hv
    refine ⟨?_, ?_⟩
    · simp only [hdel, check_expiration_live db key now e hget hlive, hget, hv]
      simp [assocHas, assocGet, assocRemove]
    · simp only [type_of, hput (.hash [])]
      rfl
  · intro m hv
    refine ⟨?_, ?_⟩
    · simp only [srem, check_expiration_live db key now e hget hlive, hget, hv]
      simp [setRemove]
    · simp only [type_of, hput (.set [])]
      rfl
  · intro m sc hv
    refine ⟨?_, ?_⟩
    · simp only [zrem, check_expiration_live db key now e hget hlive, hget, hv]
      simp [assocHas, assocGet, assocRemove]
    · simp only [type_of, hput (.zset [])]
      rfl

/-- C7 (witness).  The amended statement evaluated on singleton
containers under five concrete keys. -/
theorem C7_amended_empty_containers_remain_witness :
    rpop { items := [(strB ("l"), { value := .list [strB ("a")], expires_at := none })],
           changes_since_save := 0 } (strB ("l")) 0 =
      (.ok (some (strB ("a"))),
        { items := [(strB ("l"), { value := .list [], expires_at := none })],
          changes_since_save := 1 }) ∧
    hdel { items := [(strB ("h"), { value := .hash [(strB ("f"), strB ("v"))], expires_at := none })],
           changes_since_save := 0 } (strB ("h")) (strB ("f")) 0 =
      (.ok 1,
        { items := [(strB ("h"), { value := .hash [], expires_at := none })],
          changes_since_save := 1 }) ∧
    srem { items := [(strB ("s"), { value := .set [strB ("m")], expires_at := none })],
           changes_since_save := 0 } (strB ("s")) (strB ("m")) 0 =
      (.ok 1,
        { items := [(strB ("s"), { value := .set [], expires_at := none })],
          changes_since_save := 1 }) ∧
    zrem { items := [(strB ("z"), { value := .zset [(strB ("m"), 7)], expires_at := none })],
           changes_since_save := 0 } (strB ("z")) [strB ("m")] 0 =
      (.ok 1,
        { items := [(strB ("z"), { value := .zset [], expires_at := none })],
          changes_since_save := 1 }) := by
  refine ⟨?_, ?_, ?_, ?_⟩
  · exact ((C7_amended_empty_containers_remain
      { items := [(strB ("l"), { value := .list [strB ("a")], expires_at := none })],
        changes_since_save := 0 } (strB ("l")) 0
      { value := .list [strB ("a")], expires_at := none } rfl rfl rfl).2.1
      (strB ("a")) rfl)
  · exact ((C7_amended_empty_containers_remain
      { items := [(strB ("h"), { value := .hash [(strB ("f"), strB ("v"))], expires_at := none })],
        changes_since_save := 0 } (strB ("h")) 0
      { value := .hash [(strB ("f"), strB ("v"))], expires_at := none } rfl rfl rfl).2.2.1
      (strB ("f")) (strB ("v")) rfl).1
  · exact ((C7_amended_empty_containers_remain
      { items := [(strB ("s"), { value := .set [strB ("m")], expires_at := none })],
        changes_since_save := 0 } (strB ("s")) 0
      { value := .set [strB ("m")], expires_at := none } rfl rfl rfl).2.2.2.1
      (strB ("m")) rfl).1
  · exact ((C7_amended_empty_containers_remain
      { items := [(strB ("z"), { value := .zset [(strB ("m"), 7)], expires_at := none })],
        changes_since_save := 0 } (strB ("z")) 0
      { value := .zset [(strB ("m"), 7)], expires_at := none } rfl rfl rfl).2.2.2.2
      (strB ("m")) 7 rfl).1

/-- C8 (counterexample).  XADD with the caller-supplied ID 5-1 onto a
stream whose maximum (and only) ID is already 5-1 succeeds and appends a
second entry, refuting the claim that an ID at or below the current
maximum is rejected with the stream unchanged. -/
theorem C8_counterexample_xadd_accepts_stale_id :
    xadd { items := [(strB ("s"),
        { value := .stream [{ id := strB ("5-1"), fields := [], timestamp := 0 }] 0,
          expires_at := none })],
           changes_since_save := 0 } (strB ("s")) (some (strB ("5-1"))) [] 0 0 =
      (.ok (strB ("5-1")),
        { items := [(strB ("s"),
            { value := .stream [{ id := strB ("5-1"), fields := [], timestamp := 0 },
                                { id := strB ("5-1"), fields := [], timestamp := 0 }] 0,
              expires_at := none })],
          changes_since_save := 1 }) :=
  rfl

/-- C8 (amended).  A caller-supplied XADD ID is accepted unconditionally:
StreamData::add never compares it with the stored entries, the new entry
is appended at the tail regardless of ordering, and last_id is left
untouched; stored stream IDs are therefore not guaranteed to be strictly
increasing. -/
theorem C8_amended_xadd_accepts_any_supplied_id
    (db : DBM) (key : BStr) (id : BStr) (fields : List (BStr × BStr))
    (now nowMs : Nat) (e : EntryM) (entries : List StreamEntryM) (lastId : Nat)
    (hget : assocGet db.items key = some e) (hv : e.value = .stream entries lastId)
    (hlive : entryLive e now = true) :
    xadd db key (some id) fields now nowMs =
      (.ok id,
        { items := assocPut db.items key
            { e with
                value := .stream (entries ++
                  [{ id := id,
                     fields := fields.foldl (fun m kv => assocPut m kv.1 kv.2) [],
                     timestamp := nowMs }]) lastId },
          changes_since_save := db.changes_since_save + 1 }) := by
  simp only [xadd, check_expiration_live db key now e hget hlive, hget, hv, streamDataAdd]

/-- C8 (witness).  The amended statement evaluated at the concrete stale
ID of the counterexample. -/
theorem C8_amended_xadd_accepts_any_supplied_id_witness :
    xadd { items := [(strB ("s"),
        { value := .stream [{ id := strB ("5-1"), fields := [], timestamp := 0 }] 3,
          expires_at := none })],
           changes_since_save := 2 } (strB ("s")) (some (strB ("1-1"))) [] 0 7 =
      (.ok (strB ("1-1")),
        { items := [(strB ("s"),
            { value := .stream [{ id := strB ("5-1"), fields := [], timestamp := 0 },
                                { id := strB ("1-1"), fields := [], timestamp := 7 }] 3,
              expires_at := none })],
          changes_since_save := 3 }) := by
  have h := C8_amended_xadd_accepts_any_supplied_id
    { items := [(strB ("s"),
        { value := .stream [{ id := strB ("5-1"), fields := [], timestamp := 0 }] 3,
          expires_at := none })],
      changes_since_save := 2 } (strB ("s")) (strB ("1-1")) [] 0 7
    { value := .stream [{ id := strB ("5-1"), fields := [], timestamp := 0 }] 3,
      expires_at := none }
    [{ id := strB ("5-1"), fields := [], timestamp := 0 }] 3 rfl rfl rfl
  exact h

/-- The wrapping i64 negation agrees with exact negation on every i64
except i64::MIN, where the source wraps (release) or panics (debug). -/
theorem i64Neg_eq_neg (d : Int) (hlo : -(2 ^ 63) < d) (hhi : d ≤ 2 ^ 63 - 1) :
    i64Neg d = -d := by
  have h0 : (-d + 2 ^ 63).emod (2 ^ 64) = -d + 2 ^ 63 :=
    Int.emod_eq_of_lt (by omega) (by omega)
  unfold i64Neg
  rw [h0]
  omega

/-- C10.  INCR, DECR, INCRBY, DECRBY and INCRBYFLOAT replace the stored
string with the new value while carrying the expiry deadline over
unchanged, and every other key of the keyspace is untouched; incr and
decr delegate to incrby with 1 and -1 exactly as in the source, and
decrby delegates with the wrapping i64 negation of its argument, which
is the exact negation everywhere except delta = i64::MIN. -/
theorem C10_incr_family_preserves_expiry_and_frame
    (db : DBM) (key : BStr) (delta : Int) (now : Nat) (e : EntryM) (s : BStr) (n : Int)
    (hget : assocGet db.items key = some e) (hv : e.value = .string s)
    (hlive : entryLive e now = true)
    (hparse : parseI64 s = some n)
    (hlo : -(2 ^ 63) ≤ n + delta) (hhi : n + delta ≤ 2 ^ 63 - 1) :
    incrby db key delta now =
      (.ok (n + delta),
        { items := assocPut db.items key
            { value := .string (intDecimal (n + delta)), expires_at := e.expires_at },
          changes_since_save := db.changes_since_save + 1 }) ∧
    (∀ k2, k2 ≠ key →
      assocGet (assocPut db.items key
        { value := .string (intDecimal (n + delta)), expires_at := e.expires_at }) k2 =
        assocGet db.items k2) ∧
    incrOp db key now = incrby db key 1 now ∧
    decrOp db key now = incrby db key (-1) now ∧
    (∀ d : Int, decrby db key d now = incrby db key (i64Neg d) now) ∧
    (∀ d : Int, -(2 ^ 63) < d → d ≤ 2 ^ 63 - 1 →
      decrby db key d now = incrby db key (-d) now) ∧
    (∀ parseF addF isNanOrInf fmtF fdelta num,
      parseF s = some num → isNanOrInf (addF num fdelta) = false →
      incrbyfloat parseF addF isNanOrInf fmtF db key fdelta now =
        (.ok (addF num fdelta),
          { items := assocPut db.items key
              { value := .string (fmtF (addF num fdelta)), expires_at := e.expires_at },
            changes_since_save := db.changes_since_save + 1 })) := by
  refine ⟨?_, ?_, rfl, rfl, fun d => rfl, ?_, ?_⟩
  · simp only [incrby, check_expiration_live db key now e hget hlive, hget, hv, hparse]
    rw [if_neg (by omega)]
  · intro k2 hk2
    exact assocGet_put_ne db.items key k2 _ hk2
  · intro d hdlo hdhi
    show incrby db key (i64Neg d) now = incrby db key (-d) now
    rw [i64Neg_eq_neg d hdlo hdhi]
  · intro parseF addF isNanOrInf fmtF fdelta num hp hn
    simp only [incrbyfloat, check_expiration_live db key now e hget hlive, hget, hv, hp, hn,
      Bool.false_eq_true, if_false, Option.bind]

/-- C10 (witness).  The statement evaluated at a concrete keyspace: a
counter 41 with deadline 99 incremented by 1 becomes 42 with the same
deadline, and an unrelated key is unaffected. -/
theorem C10_incr_family_witness :
    incrby { items := [(strB ("c"), { value := .string (strB ("41")), expires_at := some 99 }),
                       (strB ("o"), { value := .string (strB ("z")), expires_at := none })],
             changes_since_save := 0 } (strB ("c")) 1 10 =
      (.ok 42,
        { items := [(strB ("c"), { value := .string (strB ("42")), expires_at := some 99 }),
                    (strB ("o"), { value := .string (strB ("z")), expires_at := none })],
          changes_since_save := 1 }) ∧
    assocGet (assocPut [(strB ("c"), ({ value := .string (strB ("41")), expires_at := some 99 } : EntryM)),
                        (strB ("o"), { value := .string (strB ("z")), expires_at := none })]
        (strB ("c")) { value := .string (intDecimal (41 + 1)), expires_at := some 99 })
      (strB ("o")) =
      some { value := .string (strB ("z")), expires_at := none } := by
  have h := C10_incr_family_preserves_expiry_and_frame
    { items := [(strB ("c"), { value := .string (strB ("41")), expires_at := some 99 }),
                (strB ("o"), { value := .string (strB ("z")), expires_at := none })],
      changes_since_save := 0 } (strB ("c")) 1 10
    { value := .string (strB ("41")), expires_at := some 99 } (strB ("41")) 41
    rfl rfl rfl (by rfl) (by norm_num) (by norm_num)
  refine ⟨?_, ?_⟩
  · have h1 := h.1
    exact h1.trans (by rfl)
  · have h2 := h.2.1 (strB ("o")) (by simp [strB])
    exact h2.trans (by rfl)

/-- C5.  For every representable RESP value (simple strings and error
payloads free of CRLF - the framing has no escape - integers and
declared lengths within i64), parsing the canonical serialization
returns exactly the value together with a consumed-byte count equal to
the serialization length. -/
theorem C5_resp_parse_serialize_roundtrip (v : RespValue) (h : Representable v) :
    parse_request (RespValue.serialize v) =
      .ok (some (v, (RespValue.serialize v).length)) := by
  have hmain := parse_ser_val v h [] ((RespValue.serialize v).length + 1) (by omega)
  rw [List.append_nil] at hmain
  rw [parse_request, hmain]

/-- C5 (witness).  The roundtrip evaluated at the concrete two-element
array holding the bulk string ab and the integer -5: seventeen bytes
out, the same value and seventeen bytes consumed back. -/
theorem C5_resp_parse_serialize_roundtrip_witness :
    Representable (RespValue.array (some (RespList.cons
      (RespValue.bulkString (some (strB ("ab"))))
      (RespList.cons (RespValue.integer (-5)) RespList.nil)))) ∧
    (RespValue.serialize (RespValue.array (some (RespList.cons
      (RespValue.bulkString (some (strB ("ab"))))
      (RespList.cons (RespValue.integer (-5)) RespList.nil))))).length = 17 ∧
    parse_request (RespValue.serialize (RespValue.array (some (RespList.cons
      (RespValue.bulkString (some (strB ("ab"))))
      (RespList.cons (RespValue.integer (-5)) RespList.nil))))) =
      .ok (some (RespValue.array (some (RespList.cons
        (RespValue.bulkString (some (strB ("ab"))))
        (RespList.cons (RespValue.integer (-5)) RespList.nil))),
        (RespValue.serialize (RespValue.array (some (RespList.cons
          (RespValue.bulkString (some (strB ("ab"))))
          (RespList.cons (RespValue.integer (-5)) RespList.nil))))).length)) := by
  have hrep : Representable (RespValue.array (some (RespList.cons
      (RespValue.bulkString (some (strB ("ab"))))
      (RespList.cons (RespValue.integer (-5)) RespList.nil)))) :=
    Representable.arraySome _ (by decide)
      (RepresentableList.cons _ _ (Representable.bulkSome _ (by decide))
        (RepresentableList.cons _ _ (Representable.integer _ (by decide) (by decide))
          RepresentableList.nil))
  exact ⟨hrep, rfl, C5_resp_parse_serialize_roundtrip _ hrep⟩

/-- C4.  An RDB save of a well-formed keyspace followed by a load into an
empty keyspace reproduces exactly the entries that were live at save
time, in order, with each expiry deadline re-anchored so the remaining
TTL is preserved (absolute instant moves from tSave-relative to
tLoad-relative); entries already expired at save time are dropped by
save itself. -/
theorem C4_rdb_save_load_roundtrip (tSave tLoad : Nat) (db : DBM) (h : dbWf db.items) :
    load (save tSave db) tLoad =
      some ((db.items.filter (fun p => liveAt tSave p.2)).map
        (fun p => (p.1, reAnchor tSave tLoad p.2))) := by
  obtain ⟨hnodup, hwid⟩ := h
  have hmag : magicBytes.length = 8 := rfl
  have hassoc : save tSave db =
      magicBytes ++ (db.items.flatMap (entryRecord tSave) ++ [255]) := by
    rw [save, List.append_assoc]
  have htake : (save tSave db).take 8 = magicBytes := by
    rw [hassoc, ← hmag, List.take_left]
  have hdrop : (save tSave db).drop 8 = db.items.flatMap (entryRecord tSave) ++ [255] := by
    rw [hassoc, ← hmag, List.drop_left]
  have hfuel : (db.items.flatMap (entryRecord tSave)).length < (save tSave db).length + 1 := by
    rw [hassoc, List.length_append, List.length_append]
    omega
  rw [load, if_pos htake, hdrop,
    loadLoopF_records tSave tLoad db.items [] ((save tSave db).length + 1) hwid
      (fun p _ q hq => absurd hq (List.not_mem_nil q)) hnodup hfuel,
    List.nil_append]

/-- C4 (witness).  A two-entry keyspace, a string with a deadline and a
list without one, saved at time 1000 and loaded at time 9999: the load
returns both entries with the string's deadline moved from 5000 to
13999 (remaining TTL 4000 preserved). -/
theorem C4_rdb_save_load_roundtrip_witness :
    dbWf [(strB ("a"), { value := .string (strB ("x")), expires_at := some 5000 }),
      (strB ("b"), { value := .list [strB ("u"), strB ("v")], expires_at := none })] ∧
    load (save 1000
      { items := [(strB ("a"), { value := .string (strB ("x")), expires_at := some 5000 }),
          (strB ("b"), { value := .list [strB ("u"), strB ("v")], expires_at := none })],
        changes_since_save := 3 }) 9999 =
      some [(strB ("a"), { value := .string (strB ("x")), expires_at := some 13999 }),
        (strB ("b"), { value := .list [strB ("u"), strB ("v")], expires_at := none })] := by
  have hwf : dbWf [(strB ("a"),
      ({ value := .string (strB ("x")), expires_at := some 5000 } : EntryM)),
      (strB ("b"), { value := .list [strB ("u"), strB ("v")], expires_at := none })] := by
    refine ⟨by decide, ?_⟩
    intro p hp
    rcases List.mem_cons.mp hp with rfl | hp2
    · exact ⟨(by decide : (strB ("a")).length < 2 ^ 32),
        (by decide : (strB ("x")).length < 2 ^ 32),
        fun t ht => by
          simp only [Option.mem_def, Option.some.injEq] at ht
          omega⟩
    · rcases List.mem_singleton.mp hp2 with rfl
      exact ⟨(by decide : (strB ("b")).length < 2 ^ 32),
        ⟨(by decide : ([strB ("u"), strB ("v")] : List BStr).length < 2 ^ 32),
          fun x hx => by
            rcases List.mem_cons.mp hx with rfl | hx2
            · exact (by decide : (strB ("u")).length < 2 ^ 32)
            · rcases List.mem_singleton.mp hx2 with rfl
              exact (by decide : (strB ("v")).length < 2 ^ 32)⟩,
        fun t ht => by simp at ht⟩
  refine ⟨hwf, ?_⟩
  rw [C4_rdb_save_load_roundtrip 1000 9999 _ hwf]
  rfl

/-- C9 (code evaluated at the failing input).  On the one-byte buffer
holding just the type byte plus sign, parse_request panics: read_line
receives the empty post-type-byte slice, buffer.len() - 1 underflows the
usize and buffer[0] is indexed out of bounds.  The claim that the parser
always returns a result without panicking is right about the intent and
wrong about this code. -/
theorem C9_parse_request_panics_on_plus :
    parse_request (strB ("+")) = .error () ∧ read_line [] = .error () :=
  ⟨rfl, rfl⟩

end HexagonDB
